import Mathlib

/-!
# SectionFlow core: shallow embedding and verification

This file embeds the core of the SectionFlow library (a windowing/recycling
engine for sectioned lists) in Lean 4 and proves properties of the embedded
code.  The embedding follows the TypeScript sources:

* utils/flattenSections.ts      : flattening of sections
* SectionLayoutManager          : boundaries and (section,item) <-> flat index
* core/LayoutCache.ts           : measured-rect cache and per-type averages
* core/LinearLayoutPositioner.ts: lazy offset computation and visible range
* core/CellRecycler.ts          : per-type cell pools
* core/ViewabilityTracker.ts    : viewability state machine

JavaScript numbers are modelled as rationals; Map objects as association
lists; timestamps as naturals.
-/

namespace SectionFlow

/-! ## Association-list maps (model of JS Map) -/

/-- Lookup in an association list (JS Map.get). -/
def alookup {κ β : Type} [DecidableEq κ] : List (κ × β) → κ → Option β
  | [], _ => none
  | (k, v) :: rest, k' => if k = k' then some v else alookup rest k'

/-- Insert/replace in an association list (JS Map.set: replaces the value of
an existing key in place, otherwise appends). -/
def aset {κ β : Type} [DecidableEq κ] : List (κ × β) → κ → β → List (κ × β)
  | [], k, v => [(k, v)]
  | (k0, v0) :: rest, k, v =>
      if k0 = k then (k0, v) :: rest else (k0, v0) :: aset rest k v

/-- Delete a key from an association list (JS Map.delete). -/
def adel {κ β : Type} [DecidableEq κ] : List (κ × β) → κ → List (κ × β)
  | [], _ => []
  | (k0, v0) :: rest, k =>
      if k0 = k then adel rest k else (k0, v0) :: adel rest k

/-- First-match combination used to describe lookup over appends. -/
def ofirst {β : Type} : Option β → Option β → Option β
  | some v, _ => some v
  | none, o => o

/-! ## Data model (types.ts) -/

/-- The kind of a flattened entry: section header, item, or section footer. -/
inductive ItemKind : Type
  | sectionHeader
  | item
  | sectionFooter
deriving DecidableEq, Repr

/-- A section: a stable key plus the ordered record payloads (types.ts). -/
structure Section (α : Type) : Type where
  key : String
  data : List α
deriving DecidableEq

/-- One entry of the flat sequence (FlattenedItem in types.ts).  The itemIndex
is an integer because headers and footers carry the sentinel -1. -/
structure FlattenedItem (α : Type) : Type where
  type : ItemKind
  key : String
  sectionKey : String
  sectionIndex : Nat
  itemIndex : Int
  item : Option α
  sec : Section α
deriving DecidableEq

/-! ## flattenSections (utils/flattenSections.ts)

The standalone utility builds its entries inline: always a section-header
entry, then — only when the section is not collapsed — one item entry per
record and, when includeSectionFooters is set, a section-footer entry. -/

/-- Recursion over the section list carrying the running section index
(the outer for-loop of flattenSections in utils/flattenSections.ts). -/
def flattenSectionsAux {α : Type} (collapsed : List String) (footers : Bool) :
    Nat → List (Section α) → List (FlattenedItem α)
  | _, [] => []
  | si, s :: rest =>
      ({ type := .sectionHeader, key := "header-" ++ s.key, sectionKey := s.key,
         sectionIndex := si, itemIndex := -1, item := none, sec := s } ::
        (if collapsed.contains s.key then []
         else
           ((List.range s.data.length).map fun ii =>
             ({ type := .item, key := "item-" ++ s.key ++ "-" ++ toString ii,
                sectionKey := s.key, sectionIndex := si, itemIndex := Int.ofNat ii,
                item := s.data[ii]?, sec := s } : FlattenedItem α)) ++
             (if footers then
               [{ type := .sectionFooter, key := "footer-" ++ s.key, sectionKey := s.key,
                  sectionIndex := si, itemIndex := -1, item := none, sec := s }]
              else []))) ++
        flattenSectionsAux collapsed footers (si + 1) rest

/-- flattenSections(sections, { collapsedSections, includeSectionFooters }). -/
def flattenSections {α : Type} (sections : List (Section α)) (collapsed : List String)
    (footers : Bool) : List (FlattenedItem α) :=
  flattenSectionsAux collapsed footers 0 sections

/-! ## Entry constructors used by SectionLayoutManagerImpl.updateData -/

/-- The header entry pushed for a section. -/
def headerEntry {α : Type} (si : Nat) (s : Section α) : FlattenedItem α :=
  { type := .sectionHeader, key := "header-" ++ s.key, sectionKey := s.key,
    sectionIndex := si, itemIndex := -1, item := none, sec := s }

/-- The footer entry pushed for a section. -/
def footerEntry {α : Type} (si : Nat) (s : Section α) : FlattenedItem α :=
  { type := .sectionFooter, key := "footer-" ++ s.key, sectionKey := s.key,
    sectionIndex := si, itemIndex := -1, item := none, sec := s }

/-- The item entries pushed for a (non-collapsed) section, in order. -/
def itemEntries {α : Type} (si : Nat) (s : Section α) : List (FlattenedItem α) :=
  (List.range s.data.length).map fun ii =>
    { type := .item, key := "item-" ++ s.key ++ "-" ++ toString ii, sectionKey := s.key,
      sectionIndex := si, itemIndex := Int.ofNat ii, item := s.data[ii]?, sec := s }

/-- All entries SectionLayoutManagerImpl.updateData pushes for one section:
always the header; items and (when hasSectionFooters) the footer only when
the section is not collapsed. -/
def sectionEntries {α : Type} (footers : Bool) (isCollapsed : Bool) (si : Nat)
    (s : Section α) : List (FlattenedItem α) :=
  headerEntry si s ::
    (if isCollapsed then []
     else itemEntries si s ++ (if footers then [footerEntry si s] else []))

/-! ## SectionLayoutManager (SectionLayoutManagerImpl.updateData / getFlatIndex)

The manager also forwards the flattened data to its LinearLayoutPositioner
(this.layoutPositioner.setData); the positioner is embedded separately below,
and the claims about the manager concern only the flattening, the boundary
table and the coordinate maps, so the state here carries those. -/

/-- Derived per-section boundary metadata (interface SectionBoundary).
firstItemFlatIndex / lastItemFlatIndex are integers because collapsed
sections keep the sentinel -1. -/
structure SectionBoundary : Type where
  sectionIndex : Nat
  sectionKey : String
  headerFlatIndex : Nat
  firstItemFlatIndex : Int
  lastItemFlatIndex : Int
  footerFlatIndex : Option Nat
  itemCount : Nat
deriving DecidableEq, Repr

/-- The boundary recorded for one section starting at flat position f.
In the source the boundary starts with sentinel fields and is mutated while
entries are emitted; this is the value it holds when it is stored:
for a non-collapsed section firstItemFlatIndex = f+1 and
lastItemFlatIndex = f + data.length (one less than first for an empty
section), for a collapsed section both stay -1. -/
def sectionBoundaryAt {α : Type} (footers : Bool) (isCollapsed : Bool) (si f : Nat)
    (s : Section α) : SectionBoundary :=
  if isCollapsed then
    { sectionIndex := si, sectionKey := s.key, headerFlatIndex := f,
      firstItemFlatIndex := -1, lastItemFlatIndex := -1,
      footerFlatIndex := none, itemCount := 0 }
  else
    { sectionIndex := si, sectionKey := s.key, headerFlatIndex := f,
      firstItemFlatIndex := Int.ofNat (f + 1),
      lastItemFlatIndex := Int.ofNat f + Int.ofNat s.data.length,
      footerFlatIndex := if footers then some (f + 1 + s.data.length) else none,
      itemCount := s.data.length }

/-- The boundaries stored by updateData, as the ordered (key, boundary) pairs
produced by this.sectionBoundaries.set as the loop runs. -/
def buildBoundaries {α : Type} (collapsed : List String) (footers : Bool) :
    Nat → Nat → List (Section α) → List (String × SectionBoundary)
  | _, _, [] => []
  | si, f, s :: rest =>
      let isCollapsed := collapsed.contains s.key
      (s.key, sectionBoundaryAt footers isCollapsed si f s) ::
        buildBoundaries collapsed footers (si + 1)
          (f + (sectionEntries (α := α) footers isCollapsed si s).length) rest

/-- State of a SectionLayoutManagerImpl after updateData. -/
structure ManagerState (α : Type) : Type where
  sections : List (Section α)
  flattenedData : List (FlattenedItem α)
  collapsedSections : List String
  sectionBoundaries : List (String × SectionBoundary)
  hasSectionFooters : Bool

/-- The flat entry list built by updateData, carrying the running section
index and flat index.  Its loop body is the same as flattenSections. -/
def buildFlattened {α : Type} (collapsed : List String) (footers : Bool) :
    Nat → List (Section α) → List (FlattenedItem α)
  | _, [] => []
  | si, s :: rest =>
      sectionEntries footers (collapsed.contains s.key) si s ++
        buildFlattened collapsed footers (si + 1) rest

/-- SectionLayoutManagerImpl.updateData(sections, collapsedSections): rebuilds
the flat sequence and the boundary table wholesale.  The boundary Map is the
fold of Map.set over the per-section boundaries in emission order. -/
def updateData {α : Type} (sections : List (Section α)) (collapsed : List String)
    (footers : Bool) : ManagerState α :=
  { sections := sections,
    flattenedData := buildFlattened collapsed footers 0 sections,
    collapsedSections := collapsed,
    sectionBoundaries :=
      (buildBoundaries collapsed footers 0 0 sections).foldl
        (fun acc p => aset acc p.1 p.2) [],
    hasSectionFooters := footers }

/-- SectionLayoutManagerImpl.getFlatIndex(sectionIndex, itemIndex). -/
def ManagerState.getFlatIndex {α : Type} (m : ManagerState α) (sectionIndex : Nat)
    (itemIndex : Int) : Int :=
  match m.sections[sectionIndex]? with
  | none => -1
  | some s =>
    match alookup m.sectionBoundaries s.key with
    | none => -1
    | some boundary =>
      if itemIndex = -1 then Int.ofNat boundary.headerFlatIndex
      else if m.collapsedSections.contains s.key then -1
      else if itemIndex < 0 ∨ (s.data.length : Int) ≤ itemIndex then -1
      else boundary.firstItemFlatIndex + itemIndex

/-- SectionLayoutManagerImpl.getSectionItemIndex(flatIndex). -/
def ManagerState.getSectionItemIndex {α : Type} (m : ManagerState α) (flatIndex : Nat) :
    Int × Int × Bool × Bool :=
  match m.flattenedData[flatIndex]? with
  | none => (-1, -1, false, false)
  | some it =>
      (Int.ofNat it.sectionIndex, it.itemIndex,
        it.type = ItemKind.sectionHeader, it.type = ItemKind.sectionFooter)

/-- The number of flat entries a section contributes (independent of its
position in the list). -/
def secLen {α : Type} (footers : Bool) (isCollapsed : Bool) (s : Section α) : Nat :=
  1 + (if isCollapsed then 0 else s.data.length + (if footers then 1 else 0))

/-- The flat length contributed by a prefix of the section list. -/
def prefLen {α : Type} (collapsed : List String) (footers : Bool)
    (ss : List (Section α)) : Nat :=
  (ss.map fun s => secLen footers (collapsed.contains s.key) s).sum

/-! ## LayoutCache (core/LayoutCache.ts)

Measured rects by stable key, plus per-type running totals.  Sizes are
rationals (the model of JS numbers used throughout this file). -/

/-- LayoutRect from types.ts: an absolute rect. -/
structure LayoutRect : Type where
  x : ℚ
  y : ℚ
  width : ℚ
  height : ℚ
deriving DecidableEq, Repr

/-- interface TypeStats of LayoutCache.ts. -/
structure TypeStats : Type where
  totalSize : ℚ
  count : Nat
deriving DecidableEq, Repr

/-- State of a LayoutCacheImpl: the rect cache and the per-type stats. -/
structure CacheState : Type where
  cache : List (String × LayoutRect)
  typeStats : List (String × TypeStats)
deriving DecidableEq, Repr

/-- The cache a fresh LayoutCacheImpl starts with. -/
def emptyCache : CacheState := { cache := [], typeStats := [] }

/-- LayoutCacheImpl.get(key). -/
def CacheState.get (c : CacheState) (key : String) : Option LayoutRect :=
  alookup c.cache key

/-- LayoutCacheImpl.set(key, layout). -/
def CacheState.set (c : CacheState) (key : String) (layout : LayoutRect) : CacheState :=
  { c with cache := aset c.cache key layout }

/-- LayoutCacheImpl.clear(). -/
def CacheState.clear (_ : CacheState) : CacheState :=
  { cache := [], typeStats := [] }

/-- LayoutCacheImpl.recordMeasurement(itemType, size): reads (or creates) the
type's stats and bumps totalSize and count. -/
def CacheState.recordMeasurement (c : CacheState) (itemType : String) (size : ℚ) :
    CacheState :=
  let stats : TypeStats :=
    (match alookup c.typeStats itemType with
     | none => { totalSize := 0, count := 0 }
     | some st => st)
  let bumped : TypeStats := { totalSize := stats.totalSize + size, count := stats.count + 1 }
  { c with typeStats := aset c.typeStats itemType bumped }

/-- LayoutCacheImpl.getAverageSize(itemType): undefined when there are no
stats or the count is zero, else totalSize / count. -/
def CacheState.getAverageSize (c : CacheState) (itemType : String) : Option ℚ :=
  match alookup c.typeStats itemType with
  | none => none
  | some st => if st.count = 0 then none else some (st.totalSize / st.count)

/-- The operations claim C8 ranges over: recordMeasurement and clear. -/
inductive MeasureOp : Type
  | record (itemType : String) (size : ℚ)
  | clear
deriving DecidableEq, Repr

/-- Run a sequence of recordMeasurement / clear calls. -/
def runMeasureOps (c : CacheState) (ops : List MeasureOp) : CacheState :=
  ops.foldl (fun st op =>
    match op with
    | .record t sz => st.recordMeasurement t sz
    | .clear => st.clear) c

/-- The sizes recorded for a type since the last clear (the reference value
claim C8 compares the cache against). -/
def recordedStep (itemType : String) (acc : List ℚ) : MeasureOp → List ℚ
  | .record t sz => if t = itemType then acc ++ [sz] else acc
  | .clear => []

/-- All sizes recorded for a type since the last clear, in order. -/
def recordedSizes (ops : List MeasureOp) (itemType : String) : List ℚ :=
  ops.foldl (recordedStep itemType) []

/-! ## LinearLayoutPositioner (core/LinearLayoutPositioner.ts) -/

/-- The zero rect returned for missing layout indices. -/
def zeroRect : LayoutRect := { x := 0, y := 0, width := 0, height := 0 }

/-- State of a LinearLayoutPositioner.  getItemType is the callback handed to
the constructor (SectionLayoutManager passes getItemTypeForIndex). -/
structure PositionerState (α : Type) : Type where
  horizontal : Bool
  estimatedItemSize : ℚ
  estimatedHeaderSize : ℚ
  estimatedFooterSize : ℚ
  containerWidth : ℚ
  containerHeight : ℚ
  flattenedData : List (FlattenedItem α)
  getItemType : Nat → String
  layoutCache : CacheState
  computedLayouts : List (Nat × LayoutRect)
  totalContentSize : ℚ × ℚ
  layoutsValid : Bool

/-- LinearLayoutPositioner.getEstimatedSize(flatIndex): the type average when
one exists, else the per-kind default estimate. -/
def PositionerState.getEstimatedSize {α : Type} (p : PositionerState α) (i : Nat) : ℚ :=
  match p.flattenedData[i]? with
  | none => p.estimatedItemSize
  | some it =>
    match p.layoutCache.getAverageSize (p.getItemType i) with
    | some avg => avg
    | none =>
      match it.type with
      | .sectionHeader => p.estimatedHeaderSize
      | .sectionFooter => p.estimatedFooterSize
      | .item => p.estimatedItemSize

/-- LinearLayoutPositioner.getItemSize(flatIndex): the measured main-axis
size when the key is cached, else the estimate. -/
def PositionerState.getItemSize {α : Type} (p : PositionerState α) (i : Nat) : ℚ :=
  match p.flattenedData[i]? with
  | none => p.estimatedItemSize
  | some it =>
    match p.layoutCache.get it.key with
    | some r => if p.horizontal then r.width else r.height
    | none => p.getEstimatedSize i

/-- The rect stored for one item given the running offset and its size. -/
def rectAt (horizontal : Bool) (cross offset size : ℚ) : LayoutRect :=
  if horizontal then { x := offset, y := 0, width := size, height := cross }
  else { x := 0, y := offset, width := cross, height := size }

/-- The for-loop of ensureLayoutsComputed: walks the given indices
accumulating the offset, returning the computed map and the final offset. -/
def layoutLoop (sizeOf : Nat → ℚ) (horizontal : Bool) (cross : ℚ) :
    List Nat → ℚ → List (Nat × LayoutRect) × ℚ
  | [], offset => ([], offset)
  | i :: rest, offset =>
      let size := sizeOf i
      let r := layoutLoop sizeOf horizontal cross rest (offset + size)
      ((i, rectAt horizontal cross offset size) :: r.1, r.2)

/-- LinearLayoutPositioner.ensureLayoutsComputed(): a no-op when the layouts
are valid; otherwise recomputes every layout and the total content size. -/
def PositionerState.ensureLayoutsComputed {α : Type} (p : PositionerState α) :
    PositionerState α :=
  if p.layoutsValid then p
  else
    let crossAxisSize := if p.horizontal then p.containerHeight else p.containerWidth
    let r := layoutLoop p.getItemSize p.horizontal crossAxisSize
      (List.range p.flattenedData.length) 0
    { p with computedLayouts := r.1,
             totalContentSize :=
               if p.horizontal then (r.2, crossAxisSize) else (crossAxisSize, r.2),
             layoutsValid := true }

/-- LinearLayoutPositioner.getLayoutForIndex(index): ensure layouts, then the
map lookup with the zero-rect default.  The stored keys are the naturals
0..length-1, so a negative index never hits (Map.get misses). -/
def PositionerState.getLayoutForIndex {α : Type} (p : PositionerState α) (index : Int) :
    LayoutRect :=
  let q := p.ensureLayoutsComputed
  match index with
  | Int.ofNat n => (alookup q.computedLayouts n).getD zeroRect
  | Int.negSucc _ => zeroRect

/-- LinearLayoutPositioner.getContentSize(), as (width, height). -/
def PositionerState.getContentSize {α : Type} (p : PositionerState α) : ℚ × ℚ :=
  p.ensureLayoutsComputed.totalContentSize

/-- LinearLayoutPositioner.invalidateFrom(index): delete the computed layout
of every index from the given one to the end of the data, and clear the
validity flag. -/
def PositionerState.invalidateFrom {α : Type} (p : PositionerState α) (index : Nat) :
    PositionerState α :=
  let cleared :=
    (List.range' index (p.flattenedData.length - index)).foldl adel p.computedLayouts
  { p with computedLayouts := cleared, layoutsValid := false }

/-- LinearLayoutPositioner.invalidateAll(). -/
def PositionerState.invalidateAll {α : Type} (p : PositionerState α) : PositionerState α :=
  { p with computedLayouts := [], layoutsValid := false }

/-- LinearLayoutPositioner.setData(flattenedData). -/
def PositionerState.setData {α : Type} (p : PositionerState α)
    (d : List (FlattenedItem α)) : PositionerState α :=
  { p with flattenedData := d }.invalidateAll

/-- The body of updateItemLayout once the item was found: record the
measurement for the type average, store the rect under the item's stable key,
and invalidate from the index onwards. -/
def PositionerState.updApply {α : Type} (p : PositionerState α) (index : Nat)
    (layout : LayoutRect) (it : FlattenedItem α) : PositionerState α :=
  let itemType := p.getItemType index
  let size := if p.horizontal then layout.width else layout.height
  let c1 := p.layoutCache.recordMeasurement itemType size
  let c2 := c1.set it.key layout
  ({ p with layoutCache := c2 }).invalidateFrom index

/-- LinearLayoutPositioner.updateItemLayout(index, layout).  A missing index
is a no-op (the early return). -/
def PositionerState.updateItemLayout {α : Type} (p : PositionerState α) (index : Nat)
    (layout : LayoutRect) : PositionerState α :=
  match p.flattenedData[index]? with
  | none => p
  | some it => p.updApply index layout it

/-- The main-axis start of a rect. -/
def mainStart (horizontal : Bool) (r : LayoutRect) : ℚ :=
  if horizontal then r.x else r.y

/-- The main-axis end of a rect. -/
def mainEnd (horizontal : Bool) (r : LayoutRect) : ℚ :=
  if horizontal then r.x + r.width else r.y + r.height

/-- LinearLayoutPositioner.binarySearchStart(offset): first index whose end
exceeds the offset (with the source's handling of a missing map entry). -/
def bsearchStart (m : List (Nat × LayoutRect)) (horizontal : Bool) (offset : ℚ)
    (low high : Nat) : Nat :=
  if _hlh : low < high then
    let mid := (low + high) / 2
    match alookup m mid with
    | none => bsearchStart m horizontal offset (mid + 1) high
    | some layout =>
        if mainEnd horizontal layout ≤ offset then
          bsearchStart m horizontal offset (mid + 1) high
        else
          bsearchStart m horizontal offset low mid
  else low
termination_by high - low
decreasing_by
  all_goals omega

/-- LinearLayoutPositioner.binarySearchEnd(offset): last index whose start is
below the offset (Math.ceil((low+high)/2) is (low+high+1)/2). -/
def bsearchEnd (m : List (Nat × LayoutRect)) (horizontal : Bool) (offset : ℚ)
    (low high : Nat) : Nat :=
  if _hlh : low < high then
    let mid := (low + high + 1) / 2
    match alookup m mid with
    | none => bsearchEnd m horizontal offset low (mid - 1)
    | some layout =>
        if offset ≤ mainStart horizontal layout then
          bsearchEnd m horizontal offset low (mid - 1)
        else
          bsearchEnd m horizontal offset mid high
  else high
termination_by high - low
decreasing_by
  all_goals omega

/-- LinearLayoutPositioner.getVisibleRange(scrollOffset, viewportSize,
overscan): (0, -1) on empty data, else the clamped binary-search pair. -/
def PositionerState.getVisibleRange {α : Type} (p : PositionerState α)
    (scrollOffset viewportSize overscan : ℚ) : Int × Int :=
  let q := p.ensureLayoutsComputed
  if q.flattenedData.length = 0 then (0, -1)
  else
    let startOffset := max 0 (scrollOffset - overscan)
    let endOffset := scrollOffset + viewportSize + overscan
    let startIndex := bsearchStart q.computedLayouts q.horizontal startOffset 0
      (q.flattenedData.length - 1)
    let endIndex := bsearchEnd q.computedLayouts q.horizontal endOffset 0
      (q.flattenedData.length - 1)
    (Int.ofNat (max 0 startIndex), Int.ofNat (min (q.flattenedData.length - 1) endIndex))

/-- LinearLayoutPositioner.getIndexForOffset(offset). -/
def PositionerState.getIndexForOffset {α : Type} (p : PositionerState α) (offset : ℚ) :
    Nat :=
  let q := p.ensureLayoutsComputed
  if q.flattenedData.length = 0 then 0
  else bsearchStart q.computedLayouts q.horizontal offset 0 (q.flattenedData.length - 1)

/-- Partial sums of the resolved sizes: the main-axis offset of index i. -/
def sizesBefore (sizeOf : Nat → ℚ) (i : Nat) : ℚ :=
  ((List.range i).map sizeOf).sum

/-- The computed-layout map that ensureLayoutsComputed builds for a state. -/
def layoutMapOf {α : Type} (p : PositionerState α) : List (Nat × LayoutRect) :=
  (layoutLoop p.getItemSize p.horizontal
    (if p.horizontal then p.containerHeight else p.containerWidth)
    (List.range p.flattenedData.length) 0).1

/-! ## CellRecycler (core/CellRecycler.ts)

Cell keys are modelled by the value of the monotone cellCounter (the source
formats the key as the type name, a dash and the counter; the counter alone
already makes keys globally unique).  A JS Set of keys is an insertion-order
list without duplicates; Set.add appends when missing, Set.delete filters. -/

/-- interface RecycledCell of types.ts. -/
structure RecycledCell : Type where
  key : Nat
  itemType : String
  flatIndex : Int
deriving DecidableEq, Repr

/-- interface RecyclePool of types.ts. -/
structure RecyclePool : Type where
  type : String
  cells : List RecycledCell
  maxSize : Nat
deriving DecidableEq, Repr

/-- State of a CellRecyclerImpl. -/
structure RecyclerState : Type where
  pools : List (String × RecyclePool)
  inUse : List (String × List Nat)
  defaultMaxPoolSize : Nat
  cellCounter : Nat
deriving DecidableEq, Repr

/-- A freshly constructed CellRecyclerImpl. -/
def initRecycler (defaultMaxPoolSize : Nat) : RecyclerState :=
  { pools := [], inUse := [], defaultMaxPoolSize := defaultMaxPoolSize, cellCounter := 0 }

/-- JS Set.add on a key list. -/
def saddKey (l : List Nat) (k : Nat) : List Nat :=
  if l.contains k then l else l ++ [k]

/-- JS Set.delete on a key list. -/
def sdelKey (l : List Nat) (k : Nat) : List Nat :=
  l.filter (fun x => x ≠ k)

/-- The in-use key set currently tracked for a type. -/
def inUseOf (s : RecyclerState) (t : String) : List Nat :=
  (alookup s.inUse t).getD []

/-- The keys of the cells currently on a type's free list. -/
def freeKeysOf (s : RecyclerState) (t : String) : List Nat :=
  ((alookup s.pools t).map fun p => p.cells.map RecycledCell.key).getD []

/-- CellRecyclerImpl.acquireCell(type, flatIndex): pop (from the end of the
array) a recycled cell if one exists, stamp the new flat index on it and
track it as in use; null when the pool is missing or empty. -/
def acquireCell (s : RecyclerState) (t : String) (flatIndex : Int) :
    Option RecycledCell × RecyclerState :=
  match alookup s.pools t with
  | none => (none, s)
  | some pool =>
    match pool.cells.getLast? with
    | none => (none, s)
    | some cell0 =>
        let cell := { cell0 with flatIndex := flatIndex }
        let pool2 := { pool with cells := pool.cells.dropLast }
        (some cell,
          { s with pools := aset s.pools t pool2,
                   inUse := aset s.inUse t (saddKey (inUseOf s t) cell.key) })

/-- CellRecyclerImpl.releaseCell(cell): untrack the key, then push the cell
back onto its type's free list only while that list is below the configured
maximum (creating the pool with the default maximum when missing); at the
maximum the cell is dropped. -/
def releaseCell (s : RecyclerState) (cell : RecycledCell) : RecyclerState :=
  let inUse2 :=
    (match alookup s.inUse cell.itemType with
     | none => s.inUse
     | some set0 => aset s.inUse cell.itemType (sdelKey set0 cell.key))
  let pool :=
    (alookup s.pools cell.itemType).getD
      { type := cell.itemType, cells := [], maxSize := s.defaultMaxPoolSize }
  let pool2 :=
    if pool.cells.length < pool.maxSize then { pool with cells := pool.cells ++ [cell] }
    else pool
  { s with inUse := inUse2, pools := aset s.pools cell.itemType pool2 }

/-- CellRecyclerImpl.setMaxPoolSize(type, size): create an empty pool with
the new maximum, or update the maximum and pop overflowing cells. -/
def setMaxPoolSize (s : RecyclerState) (t : String) (size : Nat) : RecyclerState :=
  match alookup s.pools t with
  | none =>
      { s with pools := aset s.pools t { type := t, cells := [], maxSize := size } }
  | some pool =>
      let pool2 := { pool with maxSize := size, cells := pool.cells.take size }
      { s with pools := aset s.pools t pool2 }

/-- CellRecyclerImpl.createCell(type, flatIndex): a fresh cell under the
bumped counter, tracked as in use. -/
def createCell (s : RecyclerState) (t : String) (flatIndex : Int) :
    RecycledCell × RecyclerState :=
  let counter2 := s.cellCounter + 1
  let cell : RecycledCell := { key := counter2, itemType := t, flatIndex := flatIndex }
  (cell,
    { s with cellCounter := counter2,
             inUse := aset s.inUse t (saddKey (inUseOf s t) cell.key) })

/-- CellRecyclerImpl.getCell(type, flatIndex): acquire from the pool, else
create a fresh cell. -/
def getCell (s : RecyclerState) (t : String) (flatIndex : Int) :
    RecycledCell × RecyclerState :=
  match acquireCell s t flatIndex with
  | (some c, s2) => (c, s2)
  | (none, s2) => createCell s2 t flatIndex

/-- CellRecyclerImpl.clearPools(). -/
def clearPools (s : RecyclerState) : RecyclerState :=
  { s with pools := [], inUse := [] }

/-- The operations of claim C7 (plus clearPools). -/
inductive RecycleOp : Type
  | acquire (t : String) (flatIndex : Int)
  | get (t : String) (flatIndex : Int)
  | release (cell : RecycledCell)
  | setMax (t : String) (size : Nat)
  | clear
deriving DecidableEq, Repr

/-- One operation, discarding the returned cell. -/
def stepOp (s : RecyclerState) : RecycleOp → RecyclerState
  | .acquire t fi => (acquireCell s t fi).2
  | .get t fi => (getCell s t fi).2
  | .release cell => releaseCell s cell
  | .setMax t size => setMaxPoolSize s t size
  | .clear => clearPools s

/-- Run a sequence of operations. -/
def runOps (s : RecyclerState) (ops : List RecycleOp) : RecyclerState :=
  ops.foldl stepOp s

/-- A trace is valid when every release targets a cell that is currently
handed out and not yet released (tracked in the in-use set for its type). -/
def validOps (s : RecyclerState) : List RecycleOp → Bool
  | [] => true
  | op :: rest =>
      (match op with
       | .release cell => (inUseOf s cell.itemType).contains cell.key
       | _ => true) && validOps (stepOp s op) rest

/-- All keys currently tracked as in use, over every type. -/
def allInUseKeys (s : RecyclerState) : List Nat :=
  (s.inUse.map Prod.snd).flatten

/-- The checker for the second half of claim C7: every cell getCell hands
out is not currently handed out (its key is not in any in-use set). -/
def handoutFresh (s : RecyclerState) : List RecycleOp → Bool
  | [] => true
  | .get t fi :: rest =>
      !(allInUseKeys s).contains (getCell s t fi).1.key &&
        handoutFresh (getCell s t fi).2 rest
  | op :: rest => handoutFresh (stepOp s op) rest

/-- The pool-size bound of claim C7: no type's free list holds more cells
than that pool's configured maximum. -/
def PoolBound (s : RecyclerState) : Prop :=
  ∀ t p, alookup s.pools t = some p → p.cells.length ≤ p.maxSize

/-- The concrete recycler trace used by the witness. -/
def cOps : List RecycleOp :=
  [.get "a" 0, .get "a" 1,
   .release { key := 1, itemType := "a", flatIndex := 0 },
   .release { key := 2, itemType := "a", flatIndex := 1 },
   .get "a" 2,
   .release { key := 1, itemType := "a", flatIndex := 2 }]

/-! ## ViewabilityTracker (core/ViewabilityTracker.ts) -/

/-- interface TrackedItem of ViewabilityTracker.ts; timestamps are the
Date.now() clock in milliseconds. -/
structure TrackedItem : Type where
  flatIndex : Int
  isViewable : Bool
  lastVisibleTime : Nat
  becameVisibleAt : Option Nat
deriving DecidableEq, Repr

/-- Required ViewabilityConfig, as the tracker's constructor resolves it. -/
structure ViewabilityConfig : Type where
  minimumViewTime : Nat
  viewAreaCoveragePercentThreshold : Rat
  itemVisiblePercentThreshold : Rat
  waitForInteraction : Bool
deriving DecidableEq, Repr

/-- DEFAULT_VIEWABILITY_CONFIG of constants.ts. -/
def DEFAULT_VIEWABILITY_CONFIG : ViewabilityConfig :=
  { minimumViewTime := 250, viewAreaCoveragePercentThreshold := 0,
    itemVisiblePercentThreshold := 50, waitForInteraction := false }

/-- State of a ViewabilityTrackerImpl over the embedded layout positioner
(the positioner itself is read-only during viewability passes). -/
structure VTState (s : Type) : Type where
  config : ViewabilityConfig
  pos : PositionerState s
  horizontal : Bool
  scrollOffset : Rat
  viewportSize : Rat
  trackedItems : List (Int × TrackedItem)
  currentlyViewable : List Int
  hasInteracted : Bool

/-- JS Set.add on the Int key list backing a Set of numbers. -/
def saddInt (l : List Int) (k : Int) : List Int :=
  if l.contains k then l else l ++ [k]

/-- ViewabilityTrackerImpl.isItemViewable(flatIndex, layout): the two
threshold checks (each an early false) and the final visibleSize > 0. -/
def VTState.isItemViewable {a : Type} (s : VTState a) (layout : LayoutRect) : Bool :=
  let itemStart := if s.horizontal then layout.x else layout.y
  let itemSize := if s.horizontal then layout.width else layout.height
  let itemEnd := itemStart + itemSize
  let viewportStart := s.scrollOffset
  let viewportEnd := s.scrollOffset + s.viewportSize
  let visibleStart := max itemStart viewportStart
  let visibleEnd := min itemEnd viewportEnd
  let visibleSize := max 0 (visibleEnd - visibleStart)
  (if 0 < s.config.itemVisiblePercentThreshold then
     let visiblePercent := if 0 < itemSize then visibleSize / itemSize * 100 else 0
     !decide (visiblePercent < s.config.itemVisiblePercentThreshold)
   else true) &&
  ((if 0 < s.config.viewAreaCoveragePercentThreshold then
      let coveragePercent :=
        if 0 < s.viewportSize then visibleSize / s.viewportSize * 100 else 0
      !decide (coveragePercent < s.config.viewAreaCoveragePercentThreshold)
    else true) &&
   decide (0 < visibleSize))

/-- The promotion test of computeViewability: not yet viewable, a non-null
becameVisibleAt, and a dwell of at least minimumViewTime. -/
def promoteCheck (cfg : ViewabilityConfig) (now : Nat) (t : TrackedItem) : Bool :=
  !t.isViewable &&
    match t.becameVisibleAt with
    | none => false
    | some b => decide ((cfg.minimumViewTime : Int) ≤ (now : Int) - (b : Int))

/-- One iteration of computeViewability's visible-range loop, accumulating
(trackedItems, newViewable, changed). -/
def visitIndex {a : Type} (s : VTState a) (now : Nat)
    (acc : List (Int × TrackedItem) × List Int × List (Int × Bool)) (i : Int) :
    List (Int × TrackedItem) × List Int × List (Int × Bool) :=
  let layout := s.pos.getLayoutForIndex i
  if s.isItemViewable layout then
    let newViewable := saddInt acc.2.1 i
    let tracked :=
      match alookup acc.1 i with
      | none => { flatIndex := i, isViewable := false, lastVisibleTime := now,
                  becameVisibleAt := some now }
      | some t => t
    let entered := promoteCheck s.config now tracked
    let tracked2 := if entered then { tracked with isViewable := true } else tracked
    let tracked3 := { tracked2 with lastVisibleTime := now }
    (aset acc.1 i tracked3, newViewable,
     if entered then acc.2.2 ++ [(i, true)] else acc.2.2)
  else acc

/-- One iteration of computeViewability's no-longer-viewable loop over the
previous currentlyViewable set, accumulating (trackedItems, changed). -/
def exitIndex (newViewable : List Int)
    (acc : List (Int × TrackedItem) × List (Int × Bool)) (i : Int) :
    List (Int × TrackedItem) × List (Int × Bool) :=
  if newViewable.contains i then acc
  else
    match alookup acc.1 i with
    | none => acc
    | some t =>
        if t.isViewable then
          (aset acc.1 i { t with isViewable := false, becameVisibleAt := none },
           acc.2 ++ [(i, false)])
        else acc

/-- The inclusive index list startIndex..endIndex of the for-loop. -/
def intRange (startIndex endIndex : Int) : List Int :=
  (List.range (endIndex + 1 - startIndex).toNat).map fun k => startIndex + Int.ofNat k

/-- ViewabilityTrackerImpl.computeViewability() at clock time now: the new
tracker state and the changed (flatIndex, isViewable) events in emission
order. -/
def VTState.computeViewability {a : Type} (s : VTState a) (now : Nat) :
    VTState a × List (Int × Bool) :=
  if s.config.waitForInteraction && !s.hasInteracted then (s, [])
  else
    let range := s.pos.getVisibleRange s.scrollOffset s.viewportSize 0
    let r1 := (intRange range.1 range.2).foldl (visitIndex s now) (s.trackedItems, [], [])
    let r2 := s.currentlyViewable.foldl (exitIndex r1.2.1) (r1.1, r1.2.2)
    ({ s with trackedItems := r2.1, currentlyViewable := r1.2.1 }, r2.2)

/-- One debounced update: updateScrollOffset(offset) followed by the
computeViewability it schedules, at clock time now. -/
structure VTPass : Type where
  now : Nat
  scrollOffset : Rat
deriving DecidableEq, Repr

/-- Apply one pass to the tracker. -/
def VTState.runPass {a : Type} (s : VTState a) (p : VTPass) :
    VTState a × List (Int × Bool) :=
  ({ s with scrollOffset := p.scrollOffset }).computeViewability p.now

/-- Run a pass sequence, collecting every changed event tagged with its
pass's clock time. -/
def VTState.runPasses {a : Type} (s : VTState a) :
    List VTPass → VTState a × List (Nat × Int × Bool)
  | [] => (s, [])
  | p :: rest =>
      let r := s.runPass p
      let r2 := r.1.runPasses rest
      (r2.1, (r.2.map fun e => (p.now, e.1, e.2)) ++ r2.2)

/-! ## Concrete states used by the concrete checks -/

/-- n flat item entries with distinct keys, as produced for a single
section of n records. -/
def cItems (n : Nat) : List (FlattenedItem Nat) :=
  (List.range n).map fun i =>
    { type := .item, key := "k" ++ toString i, sectionKey := "S", sectionIndex := 0,
      itemIndex := Int.ofNat i, item := some i, sec := { key := "S", data := [] } }

/-- A freshly constructed vertical positioner over n uniform items: nothing
measured, estimated item size 50 (the library default), invalidated layouts. -/
def cPos (n : Nat) : PositionerState Nat :=
  { horizontal := false, estimatedItemSize := 50, estimatedHeaderSize := 40,
    estimatedFooterSize := 0, containerWidth := 0, containerHeight := 0,
    flattenedData := cItems n, getItemType := fun _ => "default",
    layoutCache := emptyCache, computedLayouts := [], totalContentSize := (0, 0),
    layoutsValid := false }

/-- cPos 4 with the first three items already measured (sizes 30, 40, 50). -/
def cPosM : PositionerState Nat :=
  { cPos 4 with layoutCache :=
      { cache := [("k0", { x := 0, y := 0, width := 0, height := 30 }),
                  ("k1", { x := 0, y := 0, width := 0, height := 40 }),
                  ("k2", { x := 0, y := 0, width := 0, height := 50 })],
        typeStats := [] } }

/-- The computed layout map of six uniform 50-unit vertical items, as
ensureLayoutsComputed leaves it for cPos 6. -/
def uMap6 : List (Nat × LayoutRect) :=
  [(0, { x := 0, y := 0, width := 0, height := 50 }),
   (1, { x := 0, y := 50, width := 0, height := 50 }),
   (2, { x := 0, y := 100, width := 0, height := 50 }),
   (3, { x := 0, y := 150, width := 0, height := 50 }),
   (4, { x := 0, y := 200, width := 0, height := 50 }),
   (5, { x := 0, y := 250, width := 0, height := 50 })]

/-- cPos 6 with its layouts computed (the state ensureLayoutsComputed
produces from it, see cPosV_reach). -/
def cPosV : PositionerState Nat :=
  { cPos 6 with computedLayouts := uMap6, totalContentSize := (0, 300),
                layoutsValid := true }

/-- A tracker over cPosV with the default config and viewport 100: items
0 and 1 are fully visible at scroll offset 0, items 4 and 5 at offset 200. -/
def cVT : VTState Nat :=
  { config := DEFAULT_VIEWABILITY_CONFIG, pos := cPosV, horizontal := false,
    scrollOffset := 0, viewportSize := 100, trackedItems := [],
    currentlyViewable := [], hasInteracted := false }

/-- The pass trace of the claim C3 counterexample: confirm items 0 and 1,
scroll them out at t=300, scroll back at t=1000 and dwell until t=2000. -/
def c3Passes : List VTPass :=
  [{ now := 0, scrollOffset := 0 }, { now := 250, scrollOffset := 0 },
   { now := 300, scrollOffset := 200 }, { now := 1000, scrollOffset := 0 },
   { now := 2000, scrollOffset := 0 }]

/-- The pass trace of the claim C5 counterexample: items 0 and 1 visible
only during [0,10) and again from t=1000. -/
def c5Passes : List VTPass :=
  [{ now := 0, scrollOffset := 0 }, { now := 10, scrollOffset := 200 },
   { now := 1000, scrollOffset := 0 }]

/-! ## Lemmas: association lists -/

theorem alookup_aset {κ β : Type} [DecidableEq κ] (m : List (κ × β)) (k k' : κ) (v : β) :
    alookup (aset m k v) k' = if k = k' then some v else alookup m k' := by
  induction m with
  | nil => simp [aset, alookup]
  | cons p rest ih =>
      obtain ⟨k0, v0⟩ := p
      by_cases h0 : k0 = k
      · subst h0
        by_cases h1 : k0 = k'
        · subst h1; simp [aset, alookup]
        · simp [aset, alookup, h1]
      · by_cases h1 : k0 = k'
        · subst h1
          have hkk : ¬ k = k0 := fun h => h0 h.symm
          simp [aset, alookup, h0, ih, hkk]
        · simp [aset, alookup, h0, h1, ih]

theorem alookup_adel {κ β : Type} [DecidableEq κ] (m : List (κ × β)) (k k' : κ) :
    alookup (adel m k) k' = if k = k' then none else alookup m k' := by
  induction m with
  | nil => simp [adel, alookup]
  | cons p rest ih =>
      obtain ⟨k0, v0⟩ := p
      by_cases h0 : k0 = k
      · subst h0
        by_cases h1 : k0 = k'
        · subst h1; simp [adel, alookup, ih]
        · simp [adel, alookup, h1, ih]
      · by_cases h1 : k0 = k'
        · subst h1
          have hkk : ¬ k = k0 := fun h => h0 h.symm
          simp [adel, alookup, h0, ih, hkk]
        · simp [adel, alookup, h0, h1, ih]

theorem alookup_append {κ β : Type} [DecidableEq κ] (xs ys : List (κ × β)) (k : κ) :
    alookup (xs ++ ys) k = ofirst (alookup xs k) (alookup ys k) := by
  induction xs with
  | nil => simp [alookup, ofirst]
  | cons p rest ih =>
      by_cases h : p.1 = k
      · simp [alookup, h, ofirst]
      · simp [alookup, h, ih]

theorem alookup_eq_none {κ β : Type} [DecidableEq κ] (l : List (κ × β)) (k : κ)
    (h : k ∉ l.map Prod.fst) : alookup l k = none := by
  induction l with
  | nil => rfl
  | cons p rest ih =>
      simp only [List.map_cons, List.mem_cons] at h
      push_neg at h
      have h1 : ¬ p.1 = k := fun hc => h.1 hc.symm
      simp [alookup, h1, ih h.2]

theorem alookup_reverse {κ β : Type} [DecidableEq κ] (l : List (κ × β))
    (h : (l.map Prod.fst).Nodup) (k : κ) : alookup l.reverse k = alookup l k := by
  induction l with
  | nil => rfl
  | cons p rest ih =>
      simp only [List.map_cons, List.nodup_cons] at h
      rw [List.reverse_cons, alookup_append, ih h.2]
      by_cases hk : p.1 = k
      · subst hk
        rw [alookup_eq_none rest p.1 h.1]
        simp [alookup, ofirst]
      · simp [alookup, hk]
        cases alookup rest k <;> simp [ofirst]

theorem alookup_foldl_aset {κ β : Type} [DecidableEq κ] (l : List (κ × β))
    (acc : List (κ × β)) (k : κ) :
    alookup (l.foldl (fun a p => aset a p.1 p.2) acc) k =
      ofirst (alookup l.reverse k) (alookup acc k) := by
  induction l generalizing acc with
  | nil => simp [alookup, ofirst]
  | cons p rest ih =>
      rw [List.foldl_cons, ih, List.reverse_cons, alookup_append]
      rw [alookup_aset]
      by_cases hk : p.1 = k
      · subst hk
        simp [alookup, ofirst]
        cases alookup rest.reverse p.1 <;> simp [ofirst]
      · simp [alookup, hk]
        cases alookup rest.reverse k <;> simp [ofirst]

/-- With pairwise-distinct keys, the Map built by folding Map.set answers
lookups like the plain association list. -/
theorem alookup_foldl_aset_nodup {κ β : Type} [DecidableEq κ] (l : List (κ × β))
    (h : (l.map Prod.fst).Nodup) (k : κ) :
    alookup (l.foldl (fun a p => aset a p.1 p.2) []) k = alookup l k := by
  rw [alookup_foldl_aset, alookup_reverse l h k]
  cases alookup l k <;> simp [alookup, ofirst]

theorem itemEntries_length {α : Type} (si : Nat) (s : Section α) :
    (itemEntries si s).length = s.data.length := by
  simp [itemEntries]

theorem sectionEntries_length {α : Type} (footers c : Bool) (si : Nat) (s : Section α) :
    (sectionEntries footers c si s).length = secLen footers c s := by
  cases c <;> cases footers <;> simp [sectionEntries, secLen, itemEntries_length] <;> omega

theorem prefLen_nil {α : Type} (collapsed : List String) (footers : Bool) :
    prefLen collapsed footers ([] : List (Section α)) = 0 := rfl

theorem prefLen_cons {α : Type} (collapsed : List String) (footers : Bool)
    (s : Section α) (ss : List (Section α)) :
    prefLen collapsed footers (s :: ss) =
      secLen footers (collapsed.contains s.key) s + prefLen collapsed footers ss := by
  simp [prefLen]

theorem buildBoundaries_keys {α : Type} (collapsed : List String) (footers : Bool)
    (ss : List (Section α)) : ∀ si f,
    (buildBoundaries collapsed footers si f ss).map Prod.fst = ss.map Section.key := by
  induction ss with
  | nil => intro si f; rfl
  | cons s rest ih =>
      intro si f
      simp only [buildBoundaries, List.map_cons]
      rw [ih]

/-- The boundary stored for the j-th section of the list: it records the
header position f + prefLen(first j sections) and the section index si + j
(with si, f the starting accumulators). -/
theorem buildBoundaries_lookup {α : Type} (collapsed : List String) (footers : Bool)
    (ss : List (Section α)) : ∀ si f j s,
    ss[j]? = some s → (ss.map Section.key).Nodup →
    alookup (buildBoundaries collapsed footers si f ss) s.key =
      some (sectionBoundaryAt footers (collapsed.contains s.key) (si + j)
        (f + prefLen collapsed footers (ss.take j)) s) := by
  induction ss with
  | nil => intro si f j s hj; simp at hj
  | cons s0 rest ih =>
      intro si f j s hj hnd
      simp only [List.map_cons, List.nodup_cons] at hnd
      cases j with
      | zero =>
          simp only [List.getElem?_cons_zero, Option.some_inj] at hj
          subst hj
          simp [buildBoundaries, alookup, prefLen_nil]
      | succ j' =>
          simp only [List.getElem?_cons_succ] at hj
          have hmem : s.key ∈ rest.map Section.key := by
            have : s ∈ rest := List.getElem?_mem hj
            exact List.mem_map_of_mem Section.key this
          have hne : ¬ s0.key = s.key := fun h => hnd.1 (h ▸ hmem)
          simp only [buildBoundaries, alookup, hne, if_false]
          rw [ih (si + 1) (f + (sectionEntries footers (collapsed.contains s0.key) si s0).length)
            j' s hj hnd.2]
          rw [sectionEntries_length]
          have h1 : si + 1 + j' = si + (j' + 1) := by omega
          have h2 : f + secLen footers (collapsed.contains s0.key) s0 +
              prefLen collapsed footers (rest.take j') =
              f + prefLen collapsed footers ((s0 :: rest).take (j' + 1)) := by
            rw [List.take_succ_cons, prefLen_cons]; omega
          rw [h1, h2]

/-- Entry r of the j-th section's block sits at flat position
prefLen(first j sections) + r of the flattened sequence. -/
theorem buildFlattened_getElem {α : Type} (collapsed : List String) (footers : Bool)
    (ss : List (Section α)) : ∀ si j s r,
    ss[j]? = some s → r < secLen footers (collapsed.contains s.key) s →
    (buildFlattened collapsed footers si ss)[prefLen collapsed footers (ss.take j) + r]? =
      (sectionEntries footers (collapsed.contains s.key) (si + j) s)[r]? := by
  induction ss with
  | nil => intro si j s r hj; simp at hj
  | cons s0 rest ih =>
      intro si j s r hj hr
      cases j with
      | zero =>
          simp only [List.getElem?_cons_zero, Option.some_inj] at hj
          subst hj
          have hpos : prefLen collapsed footers ((s0 :: rest).take 0) + r = r := by
            simp [prefLen_nil]
          rw [hpos]
          simp only [buildFlattened]
          rw [List.getElem?_append_left (by rw [sectionEntries_length]; exact hr)]
          simp
      | succ j' =>
          simp only [List.getElem?_cons_succ] at hj
          have hpos : prefLen collapsed footers ((s0 :: rest).take (j' + 1)) + r =
              (sectionEntries footers (collapsed.contains s0.key) si s0).length +
                (prefLen collapsed footers (rest.take j') + r) := by
            rw [List.take_succ_cons, prefLen_cons, sectionEntries_length]; omega
          rw [hpos]
          simp only [buildFlattened]
          rw [List.getElem?_append_right (by omega)]
          rw [Nat.add_sub_cancel_left]
          rw [ih (si + 1) j' s r hj hr]
          congr 2
          omega

/-- The boundary updateData stores for the si-th section, given distinct
section keys. -/
theorem updateData_boundary {α : Type} (sections : List (Section α))
    (collapsed : List String) (footers : Bool) (si : Nat) (s : Section α)
    (hnd : (sections.map Section.key).Nodup) (hs : sections[si]? = some s) :
    alookup (updateData sections collapsed footers).sectionBoundaries s.key =
      some (sectionBoundaryAt footers (collapsed.contains s.key) si
        (prefLen collapsed footers (sections.take si)) s) := by
  have hkeys : ((buildBoundaries collapsed footers 0 0 sections).map Prod.fst).Nodup := by
    rw [buildBoundaries_keys]; exact hnd
  show alookup ((buildBoundaries collapsed footers 0 0 sections).foldl
    (fun acc p => aset acc p.1 p.2) []) s.key = _
  rw [alookup_foldl_aset_nodup _ hkeys]
  rw [buildBoundaries_lookup collapsed footers sections 0 0 si s hs hnd]
  simp

/-! ## Lemmas: the layout loop -/

theorem alookup_mem {κ β : Type} [DecidableEq κ] (m : List (κ × β)) (k : κ) (v : β)
    (h : alookup m k = some v) : (k, v) ∈ m := by
  induction m with
  | nil => simp [alookup] at h
  | cons p rest ih =>
      obtain ⟨k0, v0⟩ := p
      by_cases h0 : k0 = k
      · subst h0
        simp [alookup] at h
        subst h
        exact List.mem_cons_self _ _
      · simp only [alookup, if_neg h0] at h
        exact List.mem_cons_of_mem _ (ih h)

theorem layoutLoop_keys (sizeOf : Nat → ℚ) (horizontal : Bool) (cross : ℚ) :
    ∀ (l : List Nat) (offset : ℚ),
    (layoutLoop sizeOf horizontal cross l offset).1.map Prod.fst = l := by
  intro l
  induction l with
  | nil => intro offset; rfl
  | cons i rest ih => intro offset; simp [layoutLoop, ih]

theorem layoutLoop_total (sizeOf : Nat → ℚ) (horizontal : Bool) (cross : ℚ) :
    ∀ (l : List Nat) (offset : ℚ),
    (layoutLoop sizeOf horizontal cross l offset).2 = offset + (l.map sizeOf).sum := by
  intro l
  induction l with
  | nil => intro offset; simp [layoutLoop]
  | cons i rest ih => intro offset; simp [layoutLoop, ih]; ring

theorem layoutLoop_lookup (sizeOf : Nat → ℚ) (horizontal : Bool) (cross : ℚ) :
    ∀ (b a : Nat) (offset : ℚ) (i : Nat), a ≤ i → i < a + b →
    alookup (layoutLoop sizeOf horizontal cross (List.range' a b) offset).1 i =
      some (rectAt horizontal cross
        (offset + ((List.range' a (i - a)).map sizeOf).sum) (sizeOf i)) := by
  intro b
  induction b with
  | zero => intro a offset i h1 h2; omega
  | succ b ih =>
      intro a offset i h1 h2
      rw [List.range'_succ]
      by_cases hai : a = i
      · subst hai
        simp [layoutLoop, alookup]
      · have hlt : a + 1 ≤ i := by omega
        simp only [layoutLoop, alookup, if_neg hai]
        rw [ih (a + 1) (offset + sizeOf a) i hlt (by omega)]
        have hsplit : List.range' a (i - a) = a :: List.range' (a + 1) (i - (a + 1)) := by
          rw [show i - a = (i - (a + 1)) + 1 by omega, List.range'_succ]
        rw [hsplit]
        simp only [List.map_cons, List.sum_cons]
        congr 2
        ring

theorem layoutLoop_lookup_none (sizeOf : Nat → ℚ) (horizontal : Bool) (cross : ℚ)
    (l : List Nat) (offset : ℚ) (i : Nat) (h : i ∉ l) :
    alookup (layoutLoop sizeOf horizontal cross l offset).1 i = none := by
  apply alookup_eq_none
  rw [layoutLoop_keys]
  exact h

/-- What ensureLayoutsComputed computes from an invalidated state. -/
theorem ensure_of_invalid {α : Type} (p : PositionerState α) (hv : p.layoutsValid = false) :
    p.ensureLayoutsComputed =
      { p with
        computedLayouts :=
          (layoutLoop p.getItemSize p.horizontal
            (if p.horizontal then p.containerHeight else p.containerWidth)
            (List.range p.flattenedData.length) 0).1,
        totalContentSize :=
          (if p.horizontal then
            ((layoutLoop p.getItemSize p.horizontal
              (if p.horizontal then p.containerHeight else p.containerWidth)
              (List.range p.flattenedData.length) 0).2,
             if p.horizontal then p.containerHeight else p.containerWidth)
          else
            (if p.horizontal then p.containerHeight else p.containerWidth,
             (layoutLoop p.getItemSize p.horizontal
              (if p.horizontal then p.containerHeight else p.containerWidth)
              (List.range p.flattenedData.length) 0).2)),
        layoutsValid := true } := by
  simp [PositionerState.ensureLayoutsComputed, hv]

/-- getLayoutForIndex on an invalidated state: the rect of a valid index is
the prefix-sum offset together with the resolved size. -/
theorem getLayoutForIndex_closed {α : Type} (p : PositionerState α)
    (hv : p.layoutsValid = false) (i : Nat) (hi : i < p.flattenedData.length) :
    p.getLayoutForIndex (Int.ofNat i) =
      rectAt p.horizontal (if p.horizontal then p.containerHeight else p.containerWidth)
        (sizesBefore p.getItemSize i) (p.getItemSize i) := by
  simp only [PositionerState.getLayoutForIndex, ensure_of_invalid p hv]
  rw [List.range_eq_range']
  rw [layoutLoop_lookup p.getItemSize p.horizontal _ p.flattenedData.length 0 0 i
    (Nat.zero_le i) (by omega)]
  simp only [Option.getD_some, Nat.sub_zero]
  congr 2
  · rw [sizesBefore, List.range_eq_range']
    simp

/-! ## Claim C1: getFlatIndex coordinate lookup -/

/-- Claim C1: for every sections list and collapsed set after a rebuild
(updateData), getFlatIndex(sectionIndex, itemIndex) returns the header flat
index when itemIndex = -1 (and the flat entry there is the section's header);
returns -1 when the section is collapsed and itemIndex ≥ 0; and for a valid
item index in a non-collapsed section returns firstItemFlatIndex + itemIndex,
the flat position of exactly that item entry. -/
theorem claim_C1 {α : Type} (sections : List (Section α)) (collapsed : List String)
    (footers : Bool) (si : Nat) (s : Section α)
    (hnd : (sections.map Section.key).Nodup) (hs : sections[si]? = some s) :
    ∃ b : SectionBoundary,
      alookup (updateData sections collapsed footers).sectionBoundaries s.key = some b ∧
      (updateData sections collapsed footers).getFlatIndex si (-1) =
        Int.ofNat b.headerFlatIndex ∧
      (updateData sections collapsed footers).flattenedData[b.headerFlatIndex]? =
        some (headerEntry si s) ∧
      (∀ ii : Int, collapsed.contains s.key = true → 0 ≤ ii →
        (updateData sections collapsed footers).getFlatIndex si ii = -1) ∧
      (∀ ii : Nat, collapsed.contains s.key = false → ii < s.data.length →
        (updateData sections collapsed footers).getFlatIndex si (Int.ofNat ii) =
          b.firstItemFlatIndex + Int.ofNat ii ∧
        (updateData sections collapsed footers).flattenedData[b.headerFlatIndex + 1 + ii]? =
          (itemEntries si s)[ii]?) := by
  have hb := updateData_boundary sections collapsed footers si s hnd hs
  have hs2 : (updateData sections collapsed footers).sections[si]? = some s := hs
  have hcoll : (updateData sections collapsed footers).collapsedSections = collapsed := rfl
  have hhead : (sectionBoundaryAt footers (collapsed.contains s.key) si
      (prefLen collapsed footers (sections.take si)) s).headerFlatIndex =
      prefLen collapsed footers (sections.take si) := by
    cases hc : collapsed.contains s.key <;> simp [sectionBoundaryAt]
  refine ⟨_, hb, ?_, ?_, ?_, ?_⟩
  · -- itemIndex = -1 returns the header flat index
    simp only [ManagerState.getFlatIndex, hs2, hb]
    simp
  · -- the item entry at the header flat index is the section's header
    rw [hhead]
    show (buildFlattened collapsed footers 0 sections)[
      prefLen collapsed footers (sections.take si)]? = _
    have h0 : (0 : Nat) < secLen footers (collapsed.contains s.key) s := by
      simp [secLen]
    have hget := buildFlattened_getElem collapsed footers sections 0 si s 0 hs h0
    rw [Nat.add_zero] at hget
    rw [hget]
    simp [sectionEntries]
  · -- collapsed section, itemIndex ≥ 0: -1
    intro ii hc hii
    have hne : ¬ ii = -1 := by omega
    simp only [ManagerState.getFlatIndex, hs2, hb, hcoll]
    rw [if_neg hne, if_pos hc]
  · -- non-collapsed section, valid item index
    intro ii hc hii
    constructor
    · simp only [ManagerState.getFlatIndex, hs2, hb, hcoll, Int.ofNat_eq_coe]
      rw [if_neg (by omega), if_neg (by rw [hc]; simp), if_neg (by omega)]
    · rw [hhead]
      show (buildFlattened collapsed footers 0 sections)[
        prefLen collapsed footers (sections.take si) + 1 + ii]? = _
      have hr : 1 + ii < secLen footers (collapsed.contains s.key) s := by
        rw [hc]; cases footers <;> simp [secLen] <;> omega
      have hget := buildFlattened_getElem collapsed footers sections 0 si s (1 + ii) hs hr
      rw [show prefLen collapsed footers (sections.take si) + 1 + ii =
        prefLen collapsed footers (sections.take si) + (1 + ii) by omega]
      rw [hget, hc]
      simp only [Nat.zero_add, sectionEntries]
      rw [show (1 : Nat) + ii = ii + 1 by omega]
      rw [List.getElem?_cons_succ]
      rw [if_neg (by simp)]
      rw [List.getElem?_append_left (by rw [itemEntries_length]; exact hii)]

/-- Witness for claim C1, the spec scenario: three sections with 2, 0 and 3
records, footers disabled, the second section (index 1) collapsed; the
coordinate lookup for record 0 of the collapsed section returns -1. -/
theorem claim_C1_witness :
    (updateData [Section.mk "A" [10, 11], Section.mk "B" ([] : List Nat),
      Section.mk "C" [20, 21, 22]] ["B"] false).getFlatIndex 1 0 = -1 := by
  obtain ⟨b, hb, hh, hhd, hcoll, hnc⟩ :=
    claim_C1 [Section.mk "A" [10, 11], Section.mk "B" ([] : List Nat),
      Section.mk "C" [20, 21, 22]] ["B"] false 1 (Section.mk "B" ([] : List Nat))
      (by decide) (by decide)
  exact hcoll 0 (by decide) (by decide)

/-! ## Claim C10: flattenSections and updateData agree -/

/-- Claim C10: for every sections list, collapsed set and footer flag, the
standalone flattenSections utility and SectionLayoutManagerImpl.updateData
produce identical flattened sequences (the same entries, field by field, at
every position). -/
theorem claim_C10 {α : Type} (sections : List (Section α)) (collapsed : List String)
    (footers : Bool) :
    flattenSections sections collapsed footers =
      (updateData sections collapsed footers).flattenedData := by
  show flattenSectionsAux collapsed footers 0 sections =
    buildFlattened collapsed footers 0 sections
  generalize 0 = si
  induction sections generalizing si with
  | nil => rfl
  | cons s rest ih =>
      simp only [flattenSectionsAux, buildFlattened, sectionEntries, headerEntry,
        itemEntries, footerEntry, ih]

/-! ## Lemmas: invalidation and offsets -/

/-- Lookup after the deletion loop of invalidateFrom: indices inside the
deleted range read none, all other keys are untouched. -/
theorem alookup_foldl_adel_range {β : Type} :
    ∀ (b a : Nat) (m : List (Nat × β)) (k : Nat),
    alookup ((List.range' a b).foldl adel m) k =
      if a ≤ k ∧ k < a + b then none else alookup m k := by
  intro b
  induction b with
  | zero =>
      intro a m k
      rw [if_neg (by omega)]
      rfl
  | succ b ih =>
      intro a m k
      rw [List.range'_succ, List.foldl_cons, ih (a + 1) (adel m a) k, alookup_adel]
      by_cases h1 : a + 1 ≤ k ∧ k < a + 1 + b
      · rw [if_pos h1, if_pos (by omega)]
      · rw [if_neg h1]
        by_cases h2 : a = k
        · rw [if_pos h2, if_pos (by omega)]
        · rw [if_neg h2, if_neg (by omega)]

theorem mainStart_rectAt (h : Bool) (cross offset size : ℚ) :
    mainStart h (rectAt h cross offset size) = offset := by
  cases h <;> simp [mainStart, rectAt]

theorem mainEnd_rectAt (h : Bool) (cross offset size : ℚ) :
    mainEnd h (rectAt h cross offset size) = offset + size := by
  cases h <;> simp [mainEnd, rectAt]

/-- Prefix sums of non-negative sizes are monotone. -/
theorem sizesBefore_mono (f : Nat → ℚ) (i j : Nat) (hij : i ≤ j)
    (hnn : ∀ t, i ≤ t → t < j → 0 ≤ f t) :
    sizesBefore f i ≤ sizesBefore f j := by
  have hsplit : List.range j = List.range i ++ List.range' i (j - i) := by
    rw [List.range_eq_range', List.range_eq_range']
    rw [show List.range' 0 j = List.range' 0 ((j - i) + i) by rw [show (j - i) + i = j by omega]]
    rw [← List.range'_append_1 0 i (j - i)]
    simp
  rw [sizesBefore, sizesBefore, hsplit, List.map_append, List.sum_append]
  have : 0 ≤ ((List.range' i (j - i)).map f).sum := by
    apply List.sum_nonneg
    intro x hx
    obtain ⟨t, ht, rfl⟩ := List.mem_map.mp hx
    rw [List.mem_range'_1] at ht
    exact hnn t ht.1 (by omega)
  linarith

/-- sizesBefore only reads sizes strictly below the index. -/
theorem sizesBefore_congr (f g : Nat → ℚ) (i : Nat)
    (h : ∀ t, t < i → f t = g t) : sizesBefore f i = sizesBefore g i := by
  rw [sizesBefore, sizesBefore]
  congr 1
  apply List.map_congr_left
  intro t ht
  exact h t (List.mem_range.mp ht)

/-! ## Claim C9: out-of-range layout queries return the zero rect -/

/-- Claim C9: getLayoutForIndex on an out-of-range index (negative or at
least the item count) returns the degenerate zero rect.  The hypothesis
states the evident invariant that cached layout keys stay below the item
count (they are only ever populated from the current data). -/
theorem claim_C9 {α : Type} (p : PositionerState α) (index : Int)
    (hwf : ∀ kr ∈ p.computedLayouts, kr.1 < p.flattenedData.length)
    (hout : index < 0 ∨ (p.flattenedData.length : Int) ≤ index) :
    p.getLayoutForIndex index = zeroRect := by
  cases index with
  | negSucc n => rfl
  | ofNat n =>
      simp only [Int.ofNat_eq_coe] at hout
      have hn : p.flattenedData.length ≤ n := by omega
      have hnone : alookup p.ensureLayoutsComputed.computedLayouts n = none := by
        by_cases hv : p.layoutsValid
        · have he : p.ensureLayoutsComputed = p := by
            simp [PositionerState.ensureLayoutsComputed, hv]
          rw [he]
          cases hl : alookup p.computedLayouts n with
          | none => rfl
          | some r =>
              have hmem := hwf (n, r) (alookup_mem _ _ _ hl)
              simp only at hmem
              omega
        · have hv' : p.layoutsValid = false := by simpa using hv
          rw [ensure_of_invalid p hv']
          apply layoutLoop_lookup_none
          rw [List.mem_range]
          omega
      simp [PositionerState.getLayoutForIndex, hnone]

/-- Witness for claim C9 on a concrete positioner over 3 items, probing
index 5. -/
theorem claim_C9_witness : (cPos 3).getLayoutForIndex 5 = zeroRect :=
  claim_C9 (cPos 3) 5 (by decide) (by decide)

/-! ## Claim C6: offsets are monotone and the content size is the size sum -/

/-- Claim C6: once layouts are computed, main-axis start offsets are
non-decreasing in the index (given non-negative resolved sizes), and the
main-axis component of getContentSize equals the sum of every item's
resolved size. -/
theorem claim_C6 {α : Type} (p : PositionerState α)
    (hv : p.layoutsValid = false)
    (hnn : ∀ i, i < p.flattenedData.length → 0 ≤ p.getItemSize i) :
    (∀ i j, i ≤ j → j < p.flattenedData.length →
      mainStart p.horizontal (p.getLayoutForIndex (Int.ofNat i)) ≤
        mainStart p.horizontal (p.getLayoutForIndex (Int.ofNat j))) ∧
    (if p.horizontal then p.getContentSize.1 else p.getContentSize.2) =
      ((List.range p.flattenedData.length).map p.getItemSize).sum := by
  constructor
  · intro i j hij hj
    rw [getLayoutForIndex_closed p hv i (by omega), getLayoutForIndex_closed p hv j hj]
    rw [mainStart_rectAt, mainStart_rectAt]
    exact sizesBefore_mono p.getItemSize i j hij (fun t ht1 ht2 => hnn t (by omega))
  · rw [PositionerState.getContentSize, ensure_of_invalid p hv]
    simp only
    rw [layoutLoop_total]
    cases hh : p.horizontal <;> simp [hh]

/-- Witness for claim C6 on a concrete positioner over 3 estimated items:
offset of index 0 is at most the offset of index 2, and the content height
is the sum of the three resolved sizes. -/
theorem claim_C6_witness :
    mainStart (cPos 3).horizontal ((cPos 3).getLayoutForIndex (Int.ofNat 0)) ≤
      mainStart (cPos 3).horizontal ((cPos 3).getLayoutForIndex (Int.ofNat 2)) ∧
    (if (cPos 3).horizontal then (cPos 3).getContentSize.1
     else (cPos 3).getContentSize.2) =
      ((List.range (cPos 3).flattenedData.length).map (cPos 3).getItemSize).sum :=
  ⟨(claim_C6 (cPos 3) (by decide) (by decide)).1 0 2 (by decide) (by decide),
   (claim_C6 (cPos 3) (by decide) (by decide)).2⟩

/-! ## Claim C2: updateItemLayout and the suffix invalidation -/

/-- Entries at distinct positions of a list with pairwise-distinct keys have
distinct keys. -/
theorem nodup_key_ne {α : Type} (l : List (FlattenedItem α))
    (hnd : (l.map FlattenedItem.key).Nodup) (i j : Nat) (hij : i ≠ j)
    (a b : FlattenedItem α) (ha : l[i]? = some a) (hb : l[j]? = some b) :
    a.key ≠ b.key := by
  have ha' : (l.map FlattenedItem.key)[i]? = some a.key := by
    rw [List.getElem?_map, ha]; rfl
  have hb' : (l.map FlattenedItem.key)[j]? = some b.key := by
    rw [List.getElem?_map, hb]; rfl
  obtain ⟨hi, hia⟩ := List.getElem?_eq_some_iff.mp ha'
  obtain ⟨hj, hjb⟩ := List.getElem?_eq_some_iff.mp hb'
  intro hkey
  exact hij (hnd.getElem_inj_iff.mp (hia.trans (hkey.trans hjb.symm)))

/-- A measured item resolves to its cached main-axis size. -/
theorem getItemSize_measured {α : Type} (p : PositionerState α) (j : Nat)
    (itj : FlattenedItem α) (rj : LayoutRect)
    (hitj : p.flattenedData[j]? = some itj)
    (hrj : p.layoutCache.get itj.key = some rj) :
    p.getItemSize j = if p.horizontal then rj.width else rj.height := by
  simp [PositionerState.getItemSize, hitj, hrj]

/-- Counterexample to claim C2 as stated.  The spec scenario: a vertical list
whose index 3 was previously estimated at 50, then
updateItemLayout(3, height 80).  The recorded measurement changes the type
average used for the still-unmeasured items below, so the rect subsequently
returned for index 2 differs from the rect returned before the call. -/
theorem claim_C2_counterexample :
    ((cPos 4).updateItemLayout 3
        { x := 0, y := 0, width := 0, height := 80 }).getLayoutForIndex (Int.ofNat 2) ≠
      (cPos 4).getLayoutForIndex (Int.ofNat 2) := by
  norm_num +decide [cPos, cItems, PositionerState.updateItemLayout,
    PositionerState.updApply, PositionerState.invalidateFrom,
    PositionerState.getLayoutForIndex, PositionerState.ensureLayoutsComputed,
    PositionerState.getItemSize, PositionerState.getEstimatedSize, CacheState.get,
    CacheState.set, CacheState.recordMeasurement, CacheState.getAverageSize, emptyCache,
    alookup, aset, adel, layoutLoop, rectAt, zeroRect, List.range_succ]

/-- Claim C2 as amended: updateItemLayout(index, rect) deletes cached layout
entries only from index onward (entries strictly below stay in the map
untouched), and the rects subsequently returned for every index strictly
below are unchanged provided each such item already has a measured size in
the cache (measured sizes are immune to the type-average shift that the new
measurement causes for estimated items). -/
theorem claim_C2 {α : Type} (p : PositionerState α) (index : Nat) (layout : LayoutRect)
    (hv : p.layoutsValid = false)
    (hkeys : (p.flattenedData.map FlattenedItem.key).Nodup)
    (hmeas : ∀ j, j < index → ∃ it r, p.flattenedData[j]? = some it ∧
      p.layoutCache.get it.key = some r) :
    (∀ k, k < index →
      alookup (p.updateItemLayout index layout).computedLayouts k =
        alookup p.computedLayouts k) ∧
    (∀ i, i < index →
      (p.updateItemLayout index layout).getLayoutForIndex (Int.ofNat i) =
        p.getLayoutForIndex (Int.ofNat i)) := by
  cases hidx : p.flattenedData[index]? with
  | none =>
      constructor
      · intro k hk
        simp [PositionerState.updateItemLayout, hidx]
      · intro i hi
        simp [PositionerState.updateItemLayout, hidx]
  | some it =>
      have hu : p.updateItemLayout index layout = p.updApply index layout it := by
        simp [PositionerState.updateItemLayout, hidx]
      have hlen : index < p.flattenedData.length :=
        (List.getElem?_eq_some_iff.mp hidx).1
      constructor
      · intro k hk
        rw [hu]
        show alookup ((List.range' index (p.flattenedData.length - index)).foldl adel
          p.computedLayouts) k = _
        rw [alookup_foldl_adel_range]
        rw [if_neg (by omega)]
      · intro i hi
        rw [hu]
        have hsz : ∀ j, j < index →
            (p.updApply index layout it).getItemSize j = p.getItemSize j := by
          intro j hj
          obtain ⟨itj, rj, hitj, hrj⟩ := hmeas j hj
          have hkne : it.key ≠ itj.key :=
            nodup_key_ne p.flattenedData hkeys index j (by omega) it itj hidx hitj
          have hitj2 : (p.updApply index layout it).flattenedData[j]? = some itj := hitj
          have hget : (p.updApply index layout it).layoutCache.get itj.key = some rj := by
            show alookup (aset (p.layoutCache.recordMeasurement (p.getItemType index)
              (if p.horizontal then layout.width else layout.height)).cache
              it.key layout) itj.key = some rj
            rw [alookup_aset]
            rw [if_neg hkne]
            exact hrj
          rw [getItemSize_measured (p.updApply index layout it) j itj rj hitj2 hget,
            getItemSize_measured p j itj rj hitj hrj]
          rfl
        have hvu : (p.updApply index layout it).layoutsValid = false := rfl
        have hiu : i < (p.updApply index layout it).flattenedData.length := by
          show i < p.flattenedData.length
          omega
        rw [getLayoutForIndex_closed (p.updApply index layout it) hvu i hiu,
          getLayoutForIndex_closed p hv i (by omega)]
        have hh : (p.updApply index layout it).horizontal = p.horizontal := rfl
        have hcw : (p.updApply index layout it).containerWidth = p.containerWidth := rfl
        have hch : (p.updApply index layout it).containerHeight = p.containerHeight := rfl
        rw [hh, hcw, hch]
        rw [sizesBefore_congr (p.updApply index layout it).getItemSize p.getItemSize i
          (fun t ht => hsz t (by omega))]
        rw [hsz i hi]

/-- Witness for the amended claim C2: on cPos 4 with the three items below
index 3 measured (30, 40, 50), updateItemLayout(3, height 80) leaves the
rect returned for index 2 unchanged. -/
theorem claim_C2_witness :
    (cPosM.updateItemLayout 3
        { x := 0, y := 0, width := 0, height := 80 }).getLayoutForIndex (Int.ofNat 2) =
      cPosM.getLayoutForIndex (Int.ofNat 2) :=
  (claim_C2 cPosM 3 { x := 0, y := 0, width := 0, height := 80 } (by decide) (by decide)
    (by
      intro j hj
      interval_cases j
      · exact ⟨_, _, rfl, rfl⟩
      · exact ⟨_, _, rfl, rfl⟩
      · exact ⟨_, _, rfl, rfl⟩)).2 2 (by decide)

/-! ## Lemmas: binary search bounds -/

/-- Correctness of binarySearchStart on a fully-populated map with monotone
main-axis ends: the result stays in [low, high], everything strictly before
it ends at or before the offset, and if anything in range ends past the
offset then so does the result. -/
theorem bsearchStart_spec (m : List (Nat × LayoutRect)) (h : Bool) (offset : ℚ)
    (rectOf : Nat → LayoutRect) :
    ∀ d low high, high - low = d → low ≤ high →
    (∀ i, low ≤ i → i ≤ high → alookup m i = some (rectOf i)) →
    (∀ i j, low ≤ i → i ≤ j → j ≤ high →
      mainEnd h (rectOf i) ≤ mainEnd h (rectOf j)) →
    low ≤ bsearchStart m h offset low high ∧
    bsearchStart m h offset low high ≤ high ∧
    (∀ i, low ≤ i → i < bsearchStart m h offset low high →
      mainEnd h (rectOf i) ≤ offset) ∧
    ((∃ i, low ≤ i ∧ i ≤ high ∧ offset < mainEnd h (rectOf i)) →
      offset < mainEnd h (rectOf (bsearchStart m h offset low high))) ∧
    (bsearchStart m h offset low high < high →
      offset < mainEnd h (rectOf (bsearchStart m h offset low high))) := by
  intro d
  induction d using Nat.strong_induction_on with
  | _ d ih =>
      intro low high hd hle hm hmono
      rw [bsearchStart]
      by_cases hlh : low < high
      · rw [dif_pos hlh]
        have hmidge : low ≤ (low + high) / 2 := by omega
        have hmidlt : (low + high) / 2 < high := by omega
        simp only [hm ((low + high) / 2) hmidge (by omega)]
        by_cases hcmp : mainEnd h (rectOf ((low + high) / 2)) ≤ offset
        · rw [if_pos hcmp]
          obtain ⟨h1, h2, h3, h4, h5⟩ := ih (high - ((low + high) / 2 + 1)) (by omega)
            ((low + high) / 2 + 1) high rfl (by omega)
            (fun i hi1 hi2 => hm i (by omega) hi2)
            (fun i j hi hij hj => hmono i j (by omega) hij hj)
          refine ⟨by omega, h2, ?_, ?_, h5⟩
          · intro i hi hilt
            by_cases him : i ≤ (low + high) / 2
            · exact le_trans (hmono i ((low + high) / 2) hi him (by omega)) hcmp
            · exact h3 i (by omega) hilt
          · rintro ⟨i, hi1, hi2, hie⟩
            apply h4
            by_cases him : i ≤ (low + high) / 2
            · exact absurd hie (not_lt.mpr
                (le_trans (hmono i ((low + high) / 2) hi1 him (by omega)) hcmp))
            · exact ⟨i, by omega, hi2, hie⟩
        · rw [if_neg hcmp]
          obtain ⟨h1, h2, h3, h4, h5⟩ := ih ((low + high) / 2 - low) (by omega)
            low ((low + high) / 2) rfl (by omega)
            (fun i hi1 hi2 => hm i hi1 (by omega))
            (fun i j hi hij hj => hmono i j hi hij (by omega))
          refine ⟨h1, by omega, h3,
            fun _ => h4 ⟨(low + high) / 2, hmidge, le_refl _, not_le.mp hcmp⟩, ?_⟩
          · intro _
            by_cases hsm : bsearchStart m h offset low ((low + high) / 2) < (low + high) / 2
            · exact h5 hsm
            · have heq2 : bsearchStart m h offset low ((low + high) / 2) =
                  (low + high) / 2 := by omega
              rw [heq2]
              exact not_le.mp hcmp
      · rw [dif_neg hlh]
        have heq : low = high := by omega
        refine ⟨le_refl low, by omega, ?_, ?_, ?_⟩
        · intro i hi hilt
          omega
        · rintro ⟨i, hi1, hi2, hie⟩
          have : i = low := by omega
          subst this
          exact hie
        · intro hcon
          omega

/-- Correctness of binarySearchEnd on a fully-populated map with monotone
main-axis starts: the result stays in [low, high], everything strictly after
it starts at or past the offset, and if anything in range starts below the
offset then so does the result. -/
theorem bsearchEnd_spec (m : List (Nat × LayoutRect)) (h : Bool) (offset : ℚ)
    (rectOf : Nat → LayoutRect) :
    ∀ d low high, high - low = d → low ≤ high →
    (∀ i, low ≤ i → i ≤ high → alookup m i = some (rectOf i)) →
    (∀ i j, low ≤ i → i ≤ j → j ≤ high →
      mainStart h (rectOf i) ≤ mainStart h (rectOf j)) →
    low ≤ bsearchEnd m h offset low high ∧
    bsearchEnd m h offset low high ≤ high ∧
    (∀ i, bsearchEnd m h offset low high < i → i ≤ high →
      offset ≤ mainStart h (rectOf i)) ∧
    ((∃ i, low ≤ i ∧ i ≤ high ∧ mainStart h (rectOf i) < offset) →
      mainStart h (rectOf (bsearchEnd m h offset low high)) < offset) ∧
    (low < bsearchEnd m h offset low high →
      mainStart h (rectOf (bsearchEnd m h offset low high)) < offset) := by
  intro d
  induction d using Nat.strong_induction_on with
  | _ d ih =>
      intro low high hd hle hm hmono
      rw [bsearchEnd]
      by_cases hlh : low < high
      · rw [dif_pos hlh]
        have hmidge : low + 1 ≤ (low + high + 1) / 2 := by omega
        have hmidle : (low + high + 1) / 2 ≤ high := by omega
        simp only [hm ((low + high + 1) / 2) (by omega) hmidle]
        by_cases hcmp : offset ≤ mainStart h (rectOf ((low + high + 1) / 2))
        · rw [if_pos hcmp]
          obtain ⟨h1, h2, h3, h4, h5⟩ := ih ((low + high + 1) / 2 - 1 - low) (by omega)
            low ((low + high + 1) / 2 - 1) rfl (by omega)
            (fun i hi1 hi2 => hm i hi1 (by omega))
            (fun i j hi hij hj => hmono i j hi hij (by omega))
          refine ⟨h1, by omega, ?_, ?_, h5⟩
          · intro i hgt hih
            by_cases him : i ≤ (low + high + 1) / 2 - 1
            · exact h3 i hgt him
            · exact le_trans hcmp (hmono ((low + high + 1) / 2) i (by omega) (by omega) hih)
          · rintro ⟨i, hi1, hi2, his⟩
            apply h4
            by_cases him : i ≤ (low + high + 1) / 2 - 1
            · exact ⟨i, hi1, him, his⟩
            · exact absurd his (not_lt.mpr (le_trans hcmp
                (hmono ((low + high + 1) / 2) i (by omega) (by omega) hi2)))
        · rw [if_neg hcmp]
          obtain ⟨h1, h2, h3, h4, h5⟩ := ih (high - (low + high + 1) / 2) (by omega)
            ((low + high + 1) / 2) high rfl (by omega)
            (fun i hi1 hi2 => hm i (by omega) hi2)
            (fun i j hi hij hj => hmono i j (by omega) hij hj)
          refine ⟨by omega, h2, h3,
            fun _ => h4 ⟨(low + high + 1) / 2, le_refl _, hmidle, not_le.mp hcmp⟩, ?_⟩
          · intro _
            by_cases hgm : (low + high + 1) / 2 <
                bsearchEnd m h offset ((low + high + 1) / 2) high
            · exact h5 hgm
            · have heq2 : bsearchEnd m h offset ((low + high + 1) / 2) high =
                  (low + high + 1) / 2 := by omega
              rw [heq2]
              exact not_le.mp hcmp
      · rw [dif_neg hlh]
        have heq : low = high := by omega
        refine ⟨by omega, le_refl high, ?_, ?_, ?_⟩
        · intro i hgt hih
          omega
        · rintro ⟨i, hi1, hi2, his⟩
          have : i = high := by omega
          subst this
          exact his
        · intro hcon
          omega

theorem sizesBefore_succ (f : Nat → ℚ) (i : Nat) :
    sizesBefore f (i + 1) = sizesBefore f i + f i := by
  simp [sizesBefore, List.range_succ]

theorem layoutMapOf_lookup {α : Type} (p : PositionerState α) (i : Nat)
    (hi : i < p.flattenedData.length) :
    alookup (layoutMapOf p) i = some (rectAt p.horizontal
      (if p.horizontal then p.containerHeight else p.containerWidth)
      (sizesBefore p.getItemSize i) (p.getItemSize i)) := by
  rw [layoutMapOf, List.range_eq_range',
    layoutLoop_lookup p.getItemSize p.horizontal _ p.flattenedData.length 0 0 i
      (Nat.zero_le _) (by omega)]
  congr 2
  rw [sizesBefore, List.range_eq_range']
  simp

/-- What getVisibleRange computes on an invalidated, non-empty state. -/
theorem getVisibleRange_eq {α : Type} (p : PositionerState α)
    (hv : p.layoutsValid = false) (hne : p.flattenedData.length ≠ 0)
    (scroll viewport overscan : ℚ) :
    p.getVisibleRange scroll viewport overscan =
      (Int.ofNat (max 0 (bsearchStart (layoutMapOf p) p.horizontal
          (max 0 (scroll - overscan)) 0 (p.flattenedData.length - 1))),
       Int.ofNat (min (p.flattenedData.length - 1)
          (bsearchEnd (layoutMapOf p) p.horizontal
            (scroll + viewport + overscan) 0 (p.flattenedData.length - 1)))) := by
  simp only [PositionerState.getVisibleRange, ensure_of_invalid p hv, layoutMapOf]
  rw [if_neg hne]

/-! ## Claim C4: half-open boundary behaviour of getVisibleRange -/

/-- Main-axis ends of the computed rects are monotone in the index when the
resolved sizes are non-negative. -/
theorem rectEnd_mono {a : Type} (p : PositionerState a)
    (hnn : forall i, i < p.flattenedData.length -> 0 <= p.getItemSize i) :
    forall i j, 0 <= i -> i <= j -> j <= p.flattenedData.length - 1 ->
      mainEnd p.horizontal (rectAt p.horizontal
        (if p.horizontal then p.containerHeight else p.containerWidth)
        (sizesBefore p.getItemSize i) (p.getItemSize i)) <=
      mainEnd p.horizontal (rectAt p.horizontal
        (if p.horizontal then p.containerHeight else p.containerWidth)
        (sizesBefore p.getItemSize j) (p.getItemSize j)) := by
  intro i j _ hij hj
  rw [mainEnd_rectAt, mainEnd_rectAt, <- sizesBefore_succ, <- sizesBefore_succ]
  exact sizesBefore_mono p.getItemSize (i + 1) (j + 1) (by omega)
    (fun t ht1 ht2 => hnn t (by omega))

/-- Main-axis starts of the computed rects are monotone in the index when
the resolved sizes are non-negative. -/
theorem rectStart_mono {a : Type} (p : PositionerState a)
    (hnn : forall i, i < p.flattenedData.length -> 0 <= p.getItemSize i) :
    forall i j, 0 <= i -> i <= j -> j <= p.flattenedData.length - 1 ->
      mainStart p.horizontal (rectAt p.horizontal
        (if p.horizontal then p.containerHeight else p.containerWidth)
        (sizesBefore p.getItemSize i) (p.getItemSize i)) <=
      mainStart p.horizontal (rectAt p.horizontal
        (if p.horizontal then p.containerHeight else p.containerWidth)
        (sizesBefore p.getItemSize j) (p.getItemSize j)) := by
  intro i j _ hij hj
  rw [mainStart_rectAt, mainStart_rectAt]
  exact sizesBefore_mono p.getItemSize i j hij (fun t ht1 ht2 => hnn t (by omega))

/-- Counterexample to claim C4 as stated: two items of size 50,
getVisibleRange(100, 300, 0).  Item 1 ends exactly at the lower bound 100,
yet it lies inside the returned range - when every item ends at or before
the lower bound the binary search clamps to the last index instead of
excluding it. -/
theorem claim_C4_counterexample :
    mainEnd (cPos 2).horizontal ((cPos 2).getLayoutForIndex (Int.ofNat 1)) =
      max 0 ((100 : Rat) - 0) /\
    ((cPos 2).getVisibleRange 100 300 0).1 <= Int.ofNat 1 /\
    Int.ofNat 1 <= ((cPos 2).getVisibleRange 100 300 0).2 := by
  have hv2 : (cPos 2).layoutsValid = false := by decide
  have hlen : (cPos 2).flattenedData.length = 2 := by decide
  have hl1 : (cPos 2).flattenedData.length - 1 = 1 := by rw [hlen]
  have hsz : forall i, i < 2 -> (cPos 2).getItemSize i = 50 := by
    intro i hi
    interval_cases i <;>
      norm_num +decide [cPos, cItems, PositionerState.getItemSize,
        PositionerState.getEstimatedSize, CacheState.get, CacheState.getAverageSize,
        emptyCache, alookup, List.range_succ]
  have hnn2 : forall i, i < (cPos 2).flattenedData.length ->
      0 <= (cPos 2).getItemSize i := by
    rw [hlen]
    intro i hi
    rw [hsz i hi]
    norm_num
  have hsb0 : sizesBefore (cPos 2).getItemSize 0 = 0 := rfl
  have hsb1 : sizesBefore (cPos 2).getItemSize 1 = 50 := by
    rw [show (1 : Nat) = 0 + 1 from rfl, sizesBefore_succ, hsb0, hsz 0 (by omega)]
    norm_num
  have hrange := getVisibleRange_eq (cPos 2) hv2 (by rw [hlen]; omega) 100 300 0
  obtain ⟨s1, s2, s3, s4, s5⟩ := bsearchStart_spec (layoutMapOf (cPos 2))
    (cPos 2).horizontal (max 0 ((100 : Rat) - 0)) _
    ((cPos 2).flattenedData.length - 1) 0 ((cPos 2).flattenedData.length - 1)
    rfl (by omega)
    (fun i h1 h2 => layoutMapOf_lookup (cPos 2) i (by omega))
    (rectEnd_mono (cPos 2) hnn2)
  obtain ⟨e1, e2, e3, e4, e5⟩ := bsearchEnd_spec (layoutMapOf (cPos 2))
    (cPos 2).horizontal ((100 : Rat) + 300 + 0) _
    ((cPos 2).flattenedData.length - 1) 0 ((cPos 2).flattenedData.length - 1)
    rfl (by omega)
    (fun i h1 h2 => layoutMapOf_lookup (cPos 2) i (by omega))
    (rectStart_mono (cPos 2) hnn2)
  have hE : bsearchEnd (layoutMapOf (cPos 2)) (cPos 2).horizontal
      ((100 : Rat) + 300 + 0) 0 ((cPos 2).flattenedData.length - 1) = 1 := by
    by_contra hne1
    have h400 := e3 1 (by omega) (by omega)
    rw [mainStart_rectAt, hsb1] at h400
    norm_num at h400
  refine ⟨?_, ?_, ?_⟩
  · rw [getLayoutForIndex_closed (cPos 2) hv2 1 (by omega)]
    rw [mainEnd_rectAt, hsb1, hsz 1 (by omega)]
    norm_num
  · rw [hrange]
    apply Int.ofNat_le.mpr
    exact Nat.max_le.mpr ⟨by omega, by omega⟩
  · rw [hrange]
    apply Int.ofNat_le.mpr
    exact Nat.le_min.mpr ⟨by omega, by omega⟩

/-- Claim C4 as amended: the two half-open exclusions hold whenever the
corresponding bound falls inside the content - an item ending at or before
the (clamped) lower bound lies strictly before the returned start index
provided some item ends past that bound, and an item starting at or past
the upper bound lies strictly after the returned end index provided some
item starts below that bound.  (When a bound lies outside the content, the
binary searches clamp to the first/last index, see the counterexample.) -/
theorem claim_C4 {a : Type} (p : PositionerState a) (scroll viewport overscan : Rat)
    (hv : p.layoutsValid = false)
    (hne : p.flattenedData.length ≠ 0)
    (hnn : forall i, i < p.flattenedData.length -> 0 <= p.getItemSize i) :
    ((∃ j, j < p.flattenedData.length /\
        max 0 (scroll - overscan) <
          mainEnd p.horizontal (p.getLayoutForIndex (Int.ofNat j))) ->
      forall i, i < p.flattenedData.length ->
        mainEnd p.horizontal (p.getLayoutForIndex (Int.ofNat i)) <=
          max 0 (scroll - overscan) ->
        Int.ofNat i < (p.getVisibleRange scroll viewport overscan).1) /\
    ((∃ j, j < p.flattenedData.length /\
        mainStart p.horizontal (p.getLayoutForIndex (Int.ofNat j)) <
          scroll + viewport + overscan) ->
      forall i, i < p.flattenedData.length ->
        scroll + viewport + overscan <=
          mainStart p.horizontal (p.getLayoutForIndex (Int.ofNat i)) ->
        (p.getVisibleRange scroll viewport overscan).2 < Int.ofNat i) := by
  have hrect : forall i, i < p.flattenedData.length ->
      p.getLayoutForIndex (Int.ofNat i) = rectAt p.horizontal
        (if p.horizontal then p.containerHeight else p.containerWidth)
        (sizesBefore p.getItemSize i) (p.getItemSize i) :=
    fun i hi => getLayoutForIndex_closed p hv i hi
  obtain ⟨s1, s2, s3, s4, s5⟩ := bsearchStart_spec (layoutMapOf p) p.horizontal
    (max 0 (scroll - overscan)) _ (p.flattenedData.length - 1) 0
    (p.flattenedData.length - 1) rfl (by omega)
    (fun i h1 h2 => layoutMapOf_lookup p i (by omega)) (rectEnd_mono p hnn)
  obtain ⟨e1, e2, e3, e4, e5⟩ := bsearchEnd_spec (layoutMapOf p) p.horizontal
    (scroll + viewport + overscan) _ (p.flattenedData.length - 1) 0
    (p.flattenedData.length - 1) rfl (by omega)
    (fun i h1 h2 => layoutMapOf_lookup p i (by omega)) (rectStart_mono p hnn)
  rw [getVisibleRange_eq p hv hne scroll viewport overscan]
  constructor
  · rintro ⟨j, hj, hjend⟩ i hi hiend
    rw [hrect j hj] at hjend
    rw [hrect i hi] at hiend
    have hS := s4 ⟨j, by omega, by omega, hjend⟩
    have hiS : i < bsearchStart (layoutMapOf p) p.horizontal
        (max 0 (scroll - overscan)) 0 (p.flattenedData.length - 1) := by
      by_contra hge
      have hmo := rectEnd_mono p hnn (bsearchStart (layoutMapOf p) p.horizontal
        (max 0 (scroll - overscan)) 0 (p.flattenedData.length - 1)) i
        (by omega) (by omega) (by omega)
      linarith
    apply Int.ofNat_lt.mpr
    omega
  · rintro ⟨j, hj, hjst⟩ i hi hist
    rw [hrect j hj] at hjst
    rw [hrect i hi] at hist
    have hE := e4 ⟨j, by omega, by omega, hjst⟩
    have hiE : bsearchEnd (layoutMapOf p) p.horizontal
        (scroll + viewport + overscan) 0 (p.flattenedData.length - 1) < i := by
      by_contra hle2
      have hmo := rectStart_mono p hnn i (bsearchEnd (layoutMapOf p) p.horizontal
        (scroll + viewport + overscan) 0 (p.flattenedData.length - 1))
        (by omega) (by omega) (by omega)
      linarith
    apply Int.ofNat_lt.mpr
    omega

/-- Prefix sums of a constant size function. -/
theorem sizesBefore_const (f : Nat → ℚ) (c : ℚ) (n : Nat)
    (hf : ∀ t, t < n → f t = c) :
    ∀ i, i ≤ n → sizesBefore f i = c * i := by
  intro i
  induction i with
  | zero => intro _; simp [sizesBefore]
  | succ k ih =>
      intro hk
      rw [sizesBefore_succ, ih (by omega), hf k (by omega)]
      push_cast
      ring

/-- Witness for claim C4: the spec scenario — six uniform items of size 50,
viewport 300, overscan 0, scroll 0 give the range [0, 5] — together with an
application of the amended exclusions on nine uniform items at scroll 100:
item 1 (ending exactly at the lower bound 100) lies strictly before the
returned start, and item 8 (starting exactly at the upper bound 400) lies
strictly after the returned end. -/
theorem claim_C4_witness :
    (cPos 6).getVisibleRange 0 300 0 = (Int.ofNat 0, Int.ofNat 5) ∧
    Int.ofNat 1 < ((cPos 9).getVisibleRange 100 300 0).1 ∧
    ((cPos 9).getVisibleRange 100 300 0).2 < Int.ofNat 8 := by
  have hsz6 : ∀ i, i < 6 → (cPos 6).getItemSize i = 50 := by
    intro i hi
    interval_cases i <;>
      norm_num +decide [cPos, cItems, PositionerState.getItemSize,
        PositionerState.getEstimatedSize, CacheState.get, CacheState.getAverageSize,
        emptyCache, alookup, List.range_succ]
  have hsz9 : ∀ i, i < 9 → (cPos 9).getItemSize i = 50 := by
    intro i hi
    interval_cases i <;>
      norm_num +decide [cPos, cItems, PositionerState.getItemSize,
        PositionerState.getEstimatedSize, CacheState.get, CacheState.getAverageSize,
        emptyCache, alookup, List.range_succ]
  have hlen6 : (cPos 6).flattenedData.length = 6 := by decide
  have hlen9 : (cPos 9).flattenedData.length = 9 := by decide
  have hl5 : (cPos 6).flattenedData.length - 1 = 5 := by rw [hlen6]
  have hnn6 : ∀ i, i < (cPos 6).flattenedData.length → 0 ≤ (cPos 6).getItemSize i := by
    rw [hlen6]; intro i hi; rw [hsz6 i hi]; norm_num
  have hnn9 : ∀ i, i < (cPos 9).flattenedData.length → 0 ≤ (cPos 9).getItemSize i := by
    rw [hlen9]; intro i hi; rw [hsz9 i hi]; norm_num
  have hsb6 : ∀ i, i ≤ 6 → sizesBefore (cPos 6).getItemSize i = 50 * i :=
    sizesBefore_const (cPos 6).getItemSize 50 6 hsz6
  have hsb9 : ∀ i, i ≤ 9 → sizesBefore (cPos 9).getItemSize i = 50 * i :=
    sizesBefore_const (cPos 9).getItemSize 50 9 hsz9
  refine ⟨?_, ?_, ?_⟩
  · -- the scenario: range [0, 5]
    have hv6 : (cPos 6).layoutsValid = false := by decide
    have hrange := getVisibleRange_eq (cPos 6) hv6 (by rw [hlen6]; omega) 0 300 0
    obtain ⟨s1, s2, s3, s4, s5⟩ := bsearchStart_spec (layoutMapOf (cPos 6))
      (cPos 6).horizontal (max 0 ((0 : ℚ) - 0)) _
      ((cPos 6).flattenedData.length - 1) 0 ((cPos 6).flattenedData.length - 1)
      rfl (by omega)
      (fun i h1 h2 => layoutMapOf_lookup (cPos 6) i (by omega))
      (rectEnd_mono (cPos 6) hnn6)
    obtain ⟨e1, e2, e3, e4, e5⟩ := bsearchEnd_spec (layoutMapOf (cPos 6))
      (cPos 6).horizontal ((0 : ℚ) + 300 + 0) _
      ((cPos 6).flattenedData.length - 1) 0 ((cPos 6).flattenedData.length - 1)
      rfl (by omega)
      (fun i h1 h2 => layoutMapOf_lookup (cPos 6) i (by omega))
      (rectStart_mono (cPos 6) hnn6)
    have hS : bsearchStart (layoutMapOf (cPos 6)) (cPos 6).horizontal
        (max 0 ((0 : ℚ) - 0)) 0 ((cPos 6).flattenedData.length - 1) = 0 := by
      by_contra hne0
      have h50 := s3 0 (by omega) (by omega)
      rw [mainEnd_rectAt, hsb6 0 (by omega), hsz6 0 (by omega)] at h50
      norm_num at h50
    have hE : bsearchEnd (layoutMapOf (cPos 6)) (cPos 6).horizontal
        ((0 : ℚ) + 300 + 0) 0 ((cPos 6).flattenedData.length - 1) = 5 := by
      by_contra hne5
      have h250 := e3 5 (by omega) (by omega)
      rw [mainStart_rectAt, hsb6 5 (by omega)] at h250
      norm_num at h250
    rw [hrange, hS, hE, hl5]
    rfl
  · -- item 1 ends exactly at the lower bound 100 and is excluded
    refine (claim_C4 (cPos 9) 100 300 0 (by decide) (by rw [hlen9]; omega) hnn9).1
      ⟨2, by rw [hlen9]; omega, ?_⟩ 1 (by rw [hlen9]; omega) ?_
    · rw [getLayoutForIndex_closed (cPos 9) (by decide) 2 (by rw [hlen9]; omega)]
      rw [mainEnd_rectAt, hsb9 2 (by omega), hsz9 2 (by omega)]
      norm_num
    · rw [getLayoutForIndex_closed (cPos 9) (by decide) 1 (by rw [hlen9]; omega)]
      rw [mainEnd_rectAt, hsb9 1 (by omega), hsz9 1 (by omega)]
      norm_num
  · -- item 8 starts exactly at the upper bound 400 and is excluded
    refine (claim_C4 (cPos 9) 100 300 0 (by decide) (by rw [hlen9]; omega) hnn9).2
      ⟨0, by rw [hlen9]; omega, ?_⟩ 8 (by rw [hlen9]; omega) ?_
    · rw [getLayoutForIndex_closed (cPos 9) (by decide) 0 (by rw [hlen9]; omega)]
      rw [mainStart_rectAt, hsb9 0 (by omega)]
      norm_num
    · rw [getLayoutForIndex_closed (cPos 9) (by decide) 8 (by rw [hlen9]; omega)]
      rw [mainStart_rectAt, hsb9 8 (by omega)]
      norm_num

/-! ## Lemmas: the cell recycler -/

theorem mem_aset_keys {κ β : Type} [DecidableEq κ] (m : List (κ × β)) (k k' : κ) (v : β) :
    k' ∈ (aset m k v).map Prod.fst ↔ k' ∈ m.map Prod.fst ∨ k' = k := by
  induction m with
  | nil => simp [aset]
  | cons p rest ih =>
      obtain ⟨k0, v0⟩ := p
      by_cases h0 : k0 = k
      · subst h0
        simp [aset]
        tauto
      · simp [aset, h0, ih]
        tauto

theorem aset_keys_nodup {κ β : Type} [DecidableEq κ] (m : List (κ × β)) (k : κ) (v : β)
    (h : (m.map Prod.fst).Nodup) : ((aset m k v).map Prod.fst).Nodup := by
  induction m with
  | nil => simp [aset]
  | cons p rest ih =>
      obtain ⟨k0, v0⟩ := p
      simp only [List.map_cons, List.nodup_cons] at h
      by_cases h0 : k0 = k
      · subst h0
        simp [aset, h.1, h.2]
      · simp only [aset, if_neg h0, List.map_cons, List.nodup_cons]
        refine ⟨?_, ih h.2⟩
        rw [mem_aset_keys]
        rintro (hin | rfl)
        · exact h.1 hin
        · exact h0 rfl

theorem alookup_of_mem_nodup {κ β : Type} [DecidableEq κ] (m : List (κ × β))
    (hnd : (m.map Prod.fst).Nodup) (k : κ) (v : β) (hmem : (k, v) ∈ m) :
    alookup m k = some v := by
  induction m with
  | nil => simp at hmem
  | cons p rest ih =>
      obtain ⟨k0, v0⟩ := p
      simp only [List.map_cons, List.nodup_cons] at hnd
      rcases List.mem_cons.mp hmem with heq | htl
      · rw [Prod.mk.injEq] at heq
        obtain ⟨h1, h2⟩ := heq
        subst h1; subst h2
        simp [alookup]
      · have hk0 : k0 ≠ k := by
          intro h
          subst h
          exact hnd.1 (List.mem_map_of_mem Prod.fst htl)
        simp only [alookup, if_neg hk0]
        exact ih hnd.2 htl

theorem mem_allInUseKeys (s : RecyclerState) (k : Nat)
    (hnd : (s.inUse.map Prod.fst).Nodup) (h : k ∈ allInUseKeys s) :
    ∃ t, k ∈ inUseOf s t := by
  rw [allInUseKeys, List.mem_flatten] at h
  obtain ⟨l, hl, hkl⟩ := h
  rw [List.mem_map] at hl
  obtain ⟨⟨t, l0⟩, hmem, rfl⟩ := hl
  refine ⟨t, ?_⟩
  rw [inUseOf, alookup_of_mem_nodup s.inUse hnd t l0 hmem]
  exact hkl

theorem mem_saddKey (l : List Nat) (k x : Nat) :
    x ∈ saddKey l k ↔ x ∈ l ∨ x = k := by
  by_cases h : k ∈ l
  · rw [saddKey, if_pos (by simpa using h)]
    constructor
    · exact fun hx => Or.inl hx
    · rintro (hx | rfl)
      · exact hx
      · exact h
  · rw [saddKey, if_neg (by simpa using h)]
    simp

theorem nodup_saddKey (l : List Nat) (k : Nat) (h : l.Nodup) : (saddKey l k).Nodup := by
  by_cases hc : k ∈ l
  · rw [saddKey, if_pos (by simpa using hc)]
    exact h
  · rw [saddKey, if_neg (by simpa using hc)]
    rw [List.nodup_append]
    refine ⟨h, List.nodup_singleton k, ?_⟩
    intro a ha hb
    simp only [List.mem_singleton] at hb
    subst hb
    exact hc ha

theorem mem_sdelKey (l : List Nat) (k x : Nat) :
    x ∈ sdelKey l k ↔ x ∈ l ∧ x ≠ k := by
  simp [sdelKey]

theorem nodup_sdelKey (l : List Nat) (k : Nat) (h : l.Nodup) : (sdelKey l k).Nodup :=
  h.filter _

/-- The ownership/bounds invariant of the recycler: in-use sets have
pairwise-distinct keys per type and across types, free lists likewise, free
and in-use keys are disjoint, and every key is at most the counter. -/
structure RecInv (s : RecyclerState) : Prop where
  inUseKeysNodup : (s.inUse.map Prod.fst).Nodup
  freeNodup : ∀ t, (freeKeysOf s t).Nodup
  usedNodup : ∀ t, (inUseOf s t).Nodup
  freeFreeDisj : ∀ t1 t2, t1 ≠ t2 → ∀ k, k ∈ freeKeysOf s t1 → k ∉ freeKeysOf s t2
  usedUsedDisj : ∀ t1 t2, t1 ≠ t2 → ∀ k, k ∈ inUseOf s t1 → k ∉ inUseOf s t2
  freeUsedDisj : ∀ t1 t2 k, k ∈ freeKeysOf s t1 → k ∉ inUseOf s t2
  freeLe : ∀ t k, k ∈ freeKeysOf s t → k ≤ s.cellCounter
  usedLe : ∀ t k, k ∈ inUseOf s t → k ≤ s.cellCounter

theorem freeKeysOf_mk (P : List (String × RecyclePool)) (U : List (String × List Nat))
    (dm cc : Nat) (t : String) :
    freeKeysOf ⟨P, U, dm, cc⟩ t =
      ((alookup P t).map fun p => p.cells.map RecycledCell.key).getD [] := rfl

theorem inUseOf_mk (P : List (String × RecyclePool)) (U : List (String × List Nat))
    (dm cc : Nat) (t : String) :
    inUseOf ⟨P, U, dm, cc⟩ t = (alookup U t).getD [] := rfl

theorem RecInv.initial (dm : Nat) : RecInv (initRecycler dm) := by
  constructor <;> simp [initRecycler, freeKeysOf, inUseOf, alookup]

theorem acquireCell_inv (s : RecyclerState) (t0 : String) (fi : Int)
    (inv : RecInv s) : RecInv (acquireCell s t0 fi).2 := by
  cases hp : alookup s.pools t0 with
  | none =>
      have hstate : (acquireCell s t0 fi).2 = s := by
        simp [acquireCell, hp]
      rw [hstate]
      exact inv
  | some pool =>
      cases hl : pool.cells.getLast? with
      | none =>
          have hstate : (acquireCell s t0 fi).2 = s := by
            simp [acquireCell, hp, hl]
          rw [hstate]
          exact inv
      | some cell0 =>
          have hstate : (acquireCell s t0 fi).2 =
              ⟨aset s.pools t0 { pool with cells := pool.cells.dropLast },
               aset s.inUse t0 (saddKey (inUseOf s t0) cell0.key),
               s.defaultMaxPoolSize, s.cellCounter⟩ := by
            simp [acquireCell, hp, hl]
          rw [hstate]
          have hfree0 : freeKeysOf s t0 = pool.cells.map RecycledCell.key := by
            rw [freeKeysOf, hp]; rfl
          have hglast : (freeKeysOf s t0).getLast? = some cell0.key := by
            rw [hfree0, List.getLast?_map, hl]; rfl
          have hsplit : (freeKeysOf s t0).dropLast ++ [cell0.key] = freeKeysOf s t0 :=
            List.dropLast_append_getLast? cell0.key hglast
          have hkmem : cell0.key ∈ freeKeysOf s t0 := by
            rw [← hsplit]; simp
          have hknotdrop : cell0.key ∉ (freeKeysOf s t0).dropLast := by
            have hnd := inv.freeNodup t0
            rw [← hsplit, List.nodup_append] at hnd
            intro hc
            exact hnd.2.2 hc (by simp)
          have hknotused : ∀ t, cell0.key ∉ inUseOf s t :=
            fun t => inv.freeUsedDisj t0 t cell0.key hkmem
          have hfree : ∀ t, freeKeysOf
              (⟨aset s.pools t0 { pool with cells := pool.cells.dropLast },
                aset s.inUse t0 (saddKey (inUseOf s t0) cell0.key),
                s.defaultMaxPoolSize, s.cellCounter⟩ : RecyclerState) t =
              if t0 = t then (freeKeysOf s t0).dropLast else freeKeysOf s t := by
            intro t
            rw [freeKeysOf_mk, alookup_aset]
            by_cases h : t0 = t
            · rw [if_pos h, if_pos h]
              show (pool.cells.dropLast).map RecycledCell.key = (freeKeysOf s t0).dropLast
              rw [hfree0, List.map_dropLast]
            · rw [if_neg h, if_neg h]
              rfl
          have huse : ∀ t, inUseOf
              (⟨aset s.pools t0 { pool with cells := pool.cells.dropLast },
                aset s.inUse t0 (saddKey (inUseOf s t0) cell0.key),
                s.defaultMaxPoolSize, s.cellCounter⟩ : RecyclerState) t =
              if t0 = t then saddKey (inUseOf s t0) cell0.key else inUseOf s t := by
            intro t
            rw [inUseOf_mk, alookup_aset]
            by_cases h : t0 = t
            · rw [if_pos h, if_pos h]
              rfl
            · rw [if_neg h, if_neg h]
              rfl
          have hsubF : ∀ t k, (k ∈ if t0 = t then (freeKeysOf s t0).dropLast
              else freeKeysOf s t) → k ∈ freeKeysOf s t := by
            intro t k hk
            by_cases h : t0 = t
            · rw [if_pos h] at hk
              rw [← h]
              rw [← hsplit]
              exact List.mem_append_left _ hk
            · rwa [if_neg h] at hk
          constructor
          · exact aset_keys_nodup s.inUse t0 _ inv.inUseKeysNodup
          · intro t
            rw [hfree t]
            by_cases h : t0 = t
            · rw [if_pos h]
              exact (inv.freeNodup t0).sublist (List.dropLast_sublist _)
            · rw [if_neg h]
              exact inv.freeNodup t
          · intro t
            rw [huse t]
            by_cases h : t0 = t
            · rw [if_pos h]
              exact nodup_saddKey _ _ (inv.usedNodup t0)
            · rw [if_neg h]
              exact inv.usedNodup t
          · intro t1 t2 hne k hk1 hk2
            rw [hfree t1] at hk1
            rw [hfree t2] at hk2
            exact inv.freeFreeDisj t1 t2 hne k (hsubF t1 k hk1) (hsubF t2 k hk2)
          · intro t1 t2 hne k hk1 hk2
            rw [huse t1] at hk1
            rw [huse t2] at hk2
            have hm1 : k ∈ inUseOf s t1 ∨ (t0 = t1 ∧ k = cell0.key) := by
              by_cases h : t0 = t1
              · rw [if_pos h, mem_saddKey] at hk1
                rcases hk1 with h1 | h1
                · exact Or.inl (h ▸ h1)
                · exact Or.inr ⟨h, h1⟩
              · rw [if_neg h] at hk1
                exact Or.inl hk1
            have hm2 : k ∈ inUseOf s t2 ∨ (t0 = t2 ∧ k = cell0.key) := by
              by_cases h : t0 = t2
              · rw [if_pos h, mem_saddKey] at hk2
                rcases hk2 with h2 | h2
                · exact Or.inl (h ▸ h2)
                · exact Or.inr ⟨h, h2⟩
              · rw [if_neg h] at hk2
                exact Or.inl hk2
            rcases hm1 with h1 | ⟨ht1, rfl⟩
            · rcases hm2 with h2 | ⟨ht2, rfl⟩
              · exact inv.usedUsedDisj t1 t2 hne k h1 h2
              · exact hknotused t1 h1
            · rcases hm2 with h2 | ⟨ht2, h2⟩
              · exact hknotused t2 h2
              · exact hne (ht1 ▸ ht2 ▸ rfl)
          · intro t1 t2 k hk1 hk2
            rw [hfree t1] at hk1
            rw [huse t2] at hk2
            have hm2 : k ∈ inUseOf s t2 ∨ (t0 = t2 ∧ k = cell0.key) := by
              by_cases h : t0 = t2
              · rw [if_pos h, mem_saddKey] at hk2
                rcases hk2 with h2 | h2
                · exact Or.inl (h ▸ h2)
                · exact Or.inr ⟨h, h2⟩
              · rw [if_neg h] at hk2
                exact Or.inl hk2
            rcases hm2 with h2 | ⟨ht2, rfl⟩
            · exact inv.freeUsedDisj t1 t2 k (hsubF t1 k hk1) h2
            · by_cases h : t0 = t1
              · rw [if_pos h] at hk1
                exact hknotdrop hk1
              · rw [if_neg h] at hk1
                exact inv.freeFreeDisj t1 t0 (fun hc => h hc.symm) cell0.key hk1 hkmem
          · intro t k hk
            rw [hfree t] at hk
            exact inv.freeLe t k (hsubF t k hk)
          · intro t k hk
            rw [huse t] at hk
            by_cases h : t0 = t
            · rw [if_pos h, mem_saddKey] at hk
              rcases hk with h1 | rfl
              · exact inv.usedLe t0 k (h ▸ h1)
              · exact inv.freeLe t0 cell0.key hkmem
            · rw [if_neg h] at hk
              exact inv.usedLe t k hk

theorem createCell_inv (s : RecyclerState) (t0 : String) (fi : Int)
    (inv : RecInv s) : RecInv (createCell s t0 fi).2 := by
  have hstate : (createCell s t0 fi).2 =
      ⟨s.pools, aset s.inUse t0 (saddKey (inUseOf s t0) (s.cellCounter + 1)),
       s.defaultMaxPoolSize, s.cellCounter + 1⟩ := by
    simp [createCell]
  rw [hstate]
  have hknotused : ∀ t, s.cellCounter + 1 ∉ inUseOf s t := by
    intro t hc
    have := inv.usedLe t _ hc
    omega
  have hknotfree : ∀ t, s.cellCounter + 1 ∉ freeKeysOf s t := by
    intro t hc
    have := inv.freeLe t _ hc
    omega
  have hfree : ∀ t, freeKeysOf
      (⟨s.pools, aset s.inUse t0 (saddKey (inUseOf s t0) (s.cellCounter + 1)),
        s.defaultMaxPoolSize, s.cellCounter + 1⟩ : RecyclerState) t =
      freeKeysOf s t := fun t => rfl
  have huse : ∀ t, inUseOf
      (⟨s.pools, aset s.inUse t0 (saddKey (inUseOf s t0) (s.cellCounter + 1)),
        s.defaultMaxPoolSize, s.cellCounter + 1⟩ : RecyclerState) t =
      if t0 = t then saddKey (inUseOf s t0) (s.cellCounter + 1) else inUseOf s t := by
    intro t
    rw [inUseOf_mk, alookup_aset]
    by_cases h : t0 = t
    · rw [if_pos h, if_pos h]
      rfl
    · rw [if_neg h, if_neg h]
      rfl
  have hmemU : ∀ t k, (k ∈ if t0 = t then saddKey (inUseOf s t0) (s.cellCounter + 1)
      else inUseOf s t) → k ∈ inUseOf s t ∨ (t0 = t ∧ k = s.cellCounter + 1) := by
    intro t k hk
    by_cases h : t0 = t
    · rw [if_pos h, mem_saddKey] at hk
      rcases hk with h1 | h1
      · exact Or.inl (h ▸ h1)
      · exact Or.inr ⟨h, h1⟩
    · rw [if_neg h] at hk
      exact Or.inl hk
  constructor
  · exact aset_keys_nodup s.inUse t0 _ inv.inUseKeysNodup
  · intro t
    rw [hfree t]
    exact inv.freeNodup t
  · intro t
    rw [huse t]
    by_cases h : t0 = t
    · rw [if_pos h]
      exact nodup_saddKey _ _ (inv.usedNodup t0)
    · rw [if_neg h]
      exact inv.usedNodup t
  · intro t1 t2 hne k hk1 hk2
    rw [hfree t1] at hk1
    rw [hfree t2] at hk2
    exact inv.freeFreeDisj t1 t2 hne k hk1 hk2
  · intro t1 t2 hne k hk1 hk2
    rw [huse t1] at hk1
    rw [huse t2] at hk2
    rcases hmemU t1 k hk1 with h1 | ⟨ht1, rfl⟩
    · rcases hmemU t2 k hk2 with h2 | ⟨ht2, rfl⟩
      · exact inv.usedUsedDisj t1 t2 hne k h1 h2
      · exact hknotused t1 h1
    · rcases hmemU t2 _ hk2 with h2 | ⟨ht2, h2⟩
      · exact hknotused t2 h2
      · exact hne (ht1 ▸ ht2 ▸ rfl)
  · intro t1 t2 k hk1 hk2
    rw [hfree t1] at hk1
    rw [huse t2] at hk2
    rcases hmemU t2 k hk2 with h2 | ⟨ht2, rfl⟩
    · exact inv.freeUsedDisj t1 t2 k hk1 h2
    · exact hknotfree t1 hk1
  · intro t k hk
    rw [hfree t] at hk
    have := inv.freeLe t k hk
    show k ≤ s.cellCounter + 1
    omega
  · intro t k hk
    rw [huse t] at hk
    rcases hmemU t k hk with h1 | ⟨_, rfl⟩
    · have := inv.usedLe t k h1
      show k ≤ s.cellCounter + 1
      omega
    · show s.cellCounter + 1 ≤ s.cellCounter + 1
      omega

theorem releaseCell_inv (s : RecyclerState) (cell : RecycledCell)
    (inv : RecInv s) (hvalid : cell.key ∈ inUseOf s cell.itemType) :
    RecInv (releaseCell s cell) := by
  cases hu : alookup s.inUse cell.itemType with
  | none =>
      rw [inUseOf, hu] at hvalid
      simp at hvalid
  | some set0 =>
      have hset0 : inUseOf s cell.itemType = set0 := by rw [inUseOf, hu]; rfl
      have hfp : ((alookup s.pools cell.itemType).getD
          { type := cell.itemType, cells := [],
            maxSize := s.defaultMaxPoolSize }).cells.map RecycledCell.key =
          freeKeysOf s cell.itemType := by
        cases hpp : alookup s.pools cell.itemType with
        | none => rw [freeKeysOf, hpp]; rfl
        | some pool => rw [freeKeysOf, hpp]; rfl
      set pool := (alookup s.pools cell.itemType).getD
        { type := cell.itemType, cells := [], maxSize := s.defaultMaxPoolSize } with hpool
      set pool2 := if pool.cells.length < pool.maxSize
        then { pool with cells := pool.cells ++ [cell] } else pool with hpool2
      have hstate : releaseCell s cell =
          ⟨aset s.pools cell.itemType pool2,
           aset s.inUse cell.itemType (sdelKey set0 cell.key),
           s.defaultMaxPoolSize, s.cellCounter⟩ := by
        rw [releaseCell, hu]
      rw [hstate]
      have hknotfree : ∀ t, cell.key ∉ freeKeysOf s t := by
        intro t hc
        exact inv.freeUsedDisj t cell.itemType cell.key hc hvalid
      have hknotherused : ∀ t, t ≠ cell.itemType → cell.key ∉ inUseOf s t := by
        intro t ht hc
        exact inv.usedUsedDisj t cell.itemType ht cell.key hc hvalid
      have hcells2 : pool2.cells.map RecycledCell.key = freeKeysOf s cell.itemType ∨
          pool2.cells.map RecycledCell.key = freeKeysOf s cell.itemType ++ [cell.key] := by
        rw [hpool2]
        by_cases h : pool.cells.length < pool.maxSize
        · rw [if_pos h]
          right
          show (pool.cells ++ [cell]).map RecycledCell.key = _
          rw [List.map_append, hfp]
          rfl
        · rw [if_neg h]
          left
          exact hfp
      have hfree : ∀ t, freeKeysOf
          (⟨aset s.pools cell.itemType pool2,
            aset s.inUse cell.itemType (sdelKey set0 cell.key),
            s.defaultMaxPoolSize, s.cellCounter⟩ : RecyclerState) t =
          if cell.itemType = t then pool2.cells.map RecycledCell.key
          else freeKeysOf s t := by
        intro t
        rw [freeKeysOf_mk, alookup_aset]
        by_cases h : cell.itemType = t
        · rw [if_pos h, if_pos h]
          rfl
        · rw [if_neg h, if_neg h]
          rfl
      have huse : ∀ t, inUseOf
          (⟨aset s.pools cell.itemType pool2,
            aset s.inUse cell.itemType (sdelKey set0 cell.key),
            s.defaultMaxPoolSize, s.cellCounter⟩ : RecyclerState) t =
          if cell.itemType = t then sdelKey set0 cell.key else inUseOf s t := by
        intro t
        rw [inUseOf_mk, alookup_aset]
        by_cases h : cell.itemType = t
        · rw [if_pos h, if_pos h]
          rfl
        · rw [if_neg h, if_neg h]
          rfl
      have hmemF : ∀ t k, (k ∈ if cell.itemType = t then pool2.cells.map RecycledCell.key
          else freeKeysOf s t) →
          k ∈ freeKeysOf s t ∨ (cell.itemType = t ∧ k = cell.key) := by
        intro t k hk
        by_cases h : cell.itemType = t
        · rw [if_pos h] at hk
          rcases hcells2 with hc | hc
          · rw [hc] at hk
            exact Or.inl (h ▸ hk)
          · rw [hc, List.mem_append] at hk
            rcases hk with h1 | h1
            · exact Or.inl (h ▸ h1)
            · simp only [List.mem_singleton] at h1
              exact Or.inr ⟨h, h1⟩
        · rw [if_neg h] at hk
          exact Or.inl hk
      have hmemU : ∀ t k, (k ∈ if cell.itemType = t then sdelKey set0 cell.key
          else inUseOf s t) → k ∈ inUseOf s t ∧ ¬ (cell.itemType = t ∧ k = cell.key) := by
        intro t k hk
        by_cases h : cell.itemType = t
        · rw [if_pos h, mem_sdelKey] at hk
          exact ⟨h ▸ (hset0 ▸ hk.1), fun hc => hk.2 hc.2⟩
        · rw [if_neg h] at hk
          exact ⟨hk, fun hc => h hc.1⟩
      constructor
      · exact aset_keys_nodup s.inUse cell.itemType _ inv.inUseKeysNodup
      · intro t
        rw [hfree t]
        by_cases h : cell.itemType = t
        · rw [if_pos h]
          rcases hcells2 with hc | hc
          · rw [hc]
            exact h ▸ inv.freeNodup cell.itemType
          · rw [hc, List.nodup_append]
            refine ⟨inv.freeNodup cell.itemType, List.nodup_singleton _, ?_⟩
            intro a ha hb
            simp only [List.mem_singleton] at hb
            subst hb
            exact hknotfree cell.itemType ha
        · rw [if_neg h]
          exact inv.freeNodup t
      · intro t
        rw [huse t]
        by_cases h : cell.itemType = t
        · rw [if_pos h]
          exact nodup_sdelKey _ _ (hset0 ▸ inv.usedNodup cell.itemType)
        · rw [if_neg h]
          exact inv.usedNodup t
      · intro t1 t2 hne k hk1 hk2
        rw [hfree t1] at hk1
        rw [hfree t2] at hk2
        rcases hmemF t1 k hk1 with h1 | ⟨ht1, rfl⟩
        · rcases hmemF t2 k hk2 with h2 | ⟨ht2, rfl⟩
          · exact inv.freeFreeDisj t1 t2 hne k h1 h2
          · exact hknotfree t1 h1
        · rcases hmemF t2 _ hk2 with h2 | ⟨ht2, h2⟩
          · exact hknotfree t2 h2
          · exact hne (ht1 ▸ ht2 ▸ rfl)
      · intro t1 t2 hne k hk1 hk2
        rw [huse t1] at hk1
        rw [huse t2] at hk2
        exact inv.usedUsedDisj t1 t2 hne k (hmemU t1 k hk1).1 (hmemU t2 k hk2).1
      · intro t1 t2 k hk1 hk2
        rw [hfree t1] at hk1
        rw [huse t2] at hk2
        rcases hmemF t1 k hk1 with h1 | ⟨ht1, rfl⟩
        · exact inv.freeUsedDisj t1 t2 k h1 (hmemU t2 k hk2).1
        · by_cases h : cell.itemType = t2
          · exact (hmemU t2 _ hk2).2 ⟨h, rfl⟩
          · exact hknotherused t2 (fun hc => h hc.symm) (hmemU t2 _ hk2).1
      · intro t k hk
        rw [hfree t] at hk
        rcases hmemF t k hk with h1 | ⟨_, rfl⟩
        · exact inv.freeLe t k h1
        · exact inv.usedLe cell.itemType cell.key hvalid
      · intro t k hk
        rw [huse t] at hk
        exact inv.usedLe t k (hmemU t k hk).1

theorem setMaxPoolSize_inv (s : RecyclerState) (t0 : String) (size : Nat)
    (inv : RecInv s) : RecInv (setMaxPoolSize s t0 size) := by
  have hkey : ∀ pool2 : RecyclePool,
      (∀ k, k ∈ pool2.cells.map RecycledCell.key → k ∈ freeKeysOf s t0) →
      pool2.cells.map RecycledCell.key ⊆ freeKeysOf s t0 → True := fun _ _ _ => trivial
  cases hp : alookup s.pools t0 with
  | none =>
      have hstate : setMaxPoolSize s t0 size =
          ⟨aset s.pools t0 { type := t0, cells := [], maxSize := size },
           s.inUse, s.defaultMaxPoolSize, s.cellCounter⟩ := by
        rw [setMaxPoolSize, hp]
      rw [hstate]
      have hfree : ∀ t, freeKeysOf
          (⟨aset s.pools t0 { type := t0, cells := [], maxSize := size },
            s.inUse, s.defaultMaxPoolSize, s.cellCounter⟩ : RecyclerState) t =
          if t0 = t then [] else freeKeysOf s t := by
        intro t
        rw [freeKeysOf_mk, alookup_aset]
        by_cases h : t0 = t
        · rw [if_pos h, if_pos h]
          rfl
        · rw [if_neg h, if_neg h]
          rfl
      have hsubF : ∀ t k, (k ∈ if t0 = t then ([] : List Nat) else freeKeysOf s t) →
          k ∈ freeKeysOf s t := by
        intro t k hk
        by_cases h : t0 = t
        · rw [if_pos h] at hk
          simp at hk
        · rwa [if_neg h] at hk
      constructor
      · exact inv.inUseKeysNodup
      · intro t
        rw [hfree t]
        by_cases h : t0 = t
        · rw [if_pos h]; exact List.nodup_nil
        · rw [if_neg h]; exact inv.freeNodup t
      · exact inv.usedNodup
      · intro t1 t2 hne k hk1 hk2
        rw [hfree t1] at hk1
        rw [hfree t2] at hk2
        exact inv.freeFreeDisj t1 t2 hne k (hsubF t1 k hk1) (hsubF t2 k hk2)
      · exact inv.usedUsedDisj
      · intro t1 t2 k hk1 hk2
        rw [hfree t1] at hk1
        exact inv.freeUsedDisj t1 t2 k (hsubF t1 k hk1) hk2
      · intro t k hk
        rw [hfree t] at hk
        exact inv.freeLe t k (hsubF t k hk)
      · exact inv.usedLe
  | some pool =>
      have hstate : setMaxPoolSize s t0 size =
          ⟨aset s.pools t0
            { pool with maxSize := size, cells := pool.cells.take size },
           s.inUse, s.defaultMaxPoolSize, s.cellCounter⟩ := by
        rw [setMaxPoolSize, hp]
      rw [hstate]
      have hfp : freeKeysOf s t0 = pool.cells.map RecycledCell.key := by
        rw [freeKeysOf, hp]; rfl
      have hfree : ∀ t, freeKeysOf
          (⟨aset s.pools t0
             { pool with maxSize := size, cells := pool.cells.take size },
            s.inUse, s.defaultMaxPoolSize, s.cellCounter⟩ : RecyclerState) t =
          if t0 = t then (freeKeysOf s t0).take size else freeKeysOf s t := by
        intro t
        rw [freeKeysOf_mk, alookup_aset]
        by_cases h : t0 = t
        · rw [if_pos h, if_pos h]
          show (pool.cells.take size).map RecycledCell.key = _
          rw [hfp, List.map_take]
        · rw [if_neg h, if_neg h]
          rfl
      have hsubF : ∀ t k, (k ∈ if t0 = t then (freeKeysOf s t0).take size
          else freeKeysOf s t) → k ∈ freeKeysOf s t := by
        intro t k hk
        by_cases h : t0 = t
        · rw [if_pos h] at hk
          exact h ▸ List.take_subset size (freeKeysOf s t0) hk
        · rwa [if_neg h] at hk
      constructor
      · exact inv.inUseKeysNodup
      · intro t
        rw [hfree t]
        by_cases h : t0 = t
        · rw [if_pos h]
          exact (inv.freeNodup t0).sublist (List.take_sublist size _)
        · rw [if_neg h]
          exact inv.freeNodup t
      · exact inv.usedNodup
      · intro t1 t2 hne k hk1 hk2
        rw [hfree t1] at hk1
        rw [hfree t2] at hk2
        exact inv.freeFreeDisj t1 t2 hne k (hsubF t1 k hk1) (hsubF t2 k hk2)
      · exact inv.usedUsedDisj
      · intro t1 t2 k hk1 hk2
        rw [hfree t1] at hk1
        exact inv.freeUsedDisj t1 t2 k (hsubF t1 k hk1) hk2
      · intro t k hk
        rw [hfree t] at hk
        exact inv.freeLe t k (hsubF t k hk)
      · exact inv.usedLe

theorem clearPools_inv (s : RecyclerState) : RecInv (clearPools s) := by
  constructor <;> simp [clearPools, freeKeysOf, inUseOf, alookup]

theorem getCell_inv (s : RecyclerState) (t0 : String) (fi : Int)
    (inv : RecInv s) : RecInv (getCell s t0 fi).2 := by
  have hacq := acquireCell_inv s t0 fi inv
  cases hac : acquireCell s t0 fi with
  | mk co s2 =>
      rw [hac] at hacq
      cases co with
      | some c =>
          have hstate : (getCell s t0 fi).2 = s2 := by
            rw [getCell, hac]
          rw [hstate]
          exact hacq
      | none =>
          have hstate : (getCell s t0 fi).2 = (createCell s2 t0 fi).2 := by
            rw [getCell, hac]
          rw [hstate]
          exact createCell_inv s2 t0 fi hacq

theorem stepOp_inv (s : RecyclerState) (op : RecycleOp) (inv : RecInv s)
    (hvalid : (match op with
      | .release cell => (inUseOf s cell.itemType).contains cell.key
      | _ => true) = true) : RecInv (stepOp s op) := by
  cases op with
  | acquire t fi => exact acquireCell_inv s t fi inv
  | get t fi => exact getCell_inv s t fi inv
  | release cell =>
      exact releaseCell_inv s cell inv (by simpa using hvalid)
  | setMax t size => exact setMaxPoolSize_inv s t size inv
  | clear => exact clearPools_inv s

theorem acquireCell_some_key (s : RecyclerState) (t0 : String) (fi : Int)
    (c : RecycledCell) (s2 : RecyclerState)
    (h : acquireCell s t0 fi = (some c, s2)) : c.key ∈ freeKeysOf s t0 := by
  cases hp : alookup s.pools t0 with
  | none =>
      simp [acquireCell, hp] at h
  | some pool =>
      cases hl : pool.cells.getLast? with
      | none =>
          simp [acquireCell, hp, hl] at h
      | some cell0 =>
          simp only [acquireCell, hp, hl, Prod.mk.injEq, Option.some_inj] at h
          rw [← h.1]
          show cell0.key ∈ freeKeysOf s t0
          rw [freeKeysOf, hp]
          exact List.mem_map_of_mem _ (List.mem_of_getLast?_eq_some hl)

theorem acquireCell_none_snd (s : RecyclerState) (t0 : String) (fi : Int)
    (s2 : RecyclerState) (h : acquireCell s t0 fi = (none, s2)) : s2 = s := by
  cases hp : alookup s.pools t0 with
  | none =>
      simp only [acquireCell, hp, Prod.mk.injEq] at h
      exact h.2.symm
  | some pool =>
      cases hl : pool.cells.getLast? with
      | none =>
          simp only [acquireCell, hp, hl, Prod.mk.injEq] at h
          exact h.2.symm
      | some cell0 =>
          simp [acquireCell, hp, hl] at h

/-- For every state satisfying the invariant, a valid operation sequence
never hands out a getCell cell whose key is still tracked as in use. -/
theorem handoutFresh_of_inv : ∀ (ops : List RecycleOp) (s : RecyclerState),
    RecInv s → validOps s ops = true → handoutFresh s ops = true := by
  intro ops
  induction ops with
  | nil => intro s _ _; rfl
  | cons op rest ih =>
      intro s inv hvalid
      cases op with
      | get t fi =>
          have hv2 : validOps (stepOp s (RecycleOp.get t fi)) rest = true := by
            simpa [validOps] using hvalid
          show (!(allInUseKeys s).contains (getCell s t fi).1.key &&
            handoutFresh (getCell s t fi).2 rest) = true
          rw [Bool.and_eq_true]
          constructor
          · rw [Bool.not_eq_true']
            cases hb : (allInUseKeys s).contains (getCell s t fi).1.key with
            | false => rfl
            | true =>
                exfalso
                have hmem : (getCell s t fi).1.key ∈ allInUseKeys s := by
                  simpa using hb
                obtain ⟨t', hmem'⟩ := mem_allInUseKeys s _ inv.inUseKeysNodup hmem
                cases hac : acquireCell s t fi with
                | mk co s2 =>
                    cases co with
                    | some c =>
                        have hkey : (getCell s t fi).1 = c := by
                          rw [getCell, hac]
                        have hfree := acquireCell_some_key s t fi c s2 hac
                        rw [hkey] at hmem'
                        exact inv.freeUsedDisj t t' c.key hfree hmem'
                    | none =>
                        have hs2 : s2 = s := acquireCell_none_snd s t fi s2 hac
                        have hkey : (getCell s t fi).1 = (createCell s2 t fi).1 := by
                          rw [getCell, hac]
                        have hkey2 : (createCell s2 t fi).1.key = s.cellCounter + 1 := by
                          rw [hs2]; rfl
                        rw [hkey, hkey2] at hmem'
                        have := inv.usedLe t' _ hmem'
                        omega
          · exact ih (getCell s t fi).2 (getCell_inv s t fi inv) hv2
      | acquire t fi =>
          have hv2 : validOps (stepOp s (RecycleOp.acquire t fi)) rest = true := by
            simpa [validOps] using hvalid
          show handoutFresh (stepOp s (RecycleOp.acquire t fi)) rest = true
          exact ih _ (acquireCell_inv s t fi inv) hv2
      | release cell =>
          have hv12 : (inUseOf s cell.itemType).contains cell.key = true ∧
              validOps (stepOp s (RecycleOp.release cell)) rest = true := by
            simpa [validOps, Bool.and_eq_true] using hvalid
          show handoutFresh (stepOp s (RecycleOp.release cell)) rest = true
          exact ih _ (releaseCell_inv s cell inv (by simpa using hv12.1)) hv12.2
      | setMax t size =>
          have hv2 : validOps (stepOp s (RecycleOp.setMax t size)) rest = true := by
            simpa [validOps] using hvalid
          show handoutFresh (stepOp s (RecycleOp.setMax t size)) rest = true
          exact ih _ (setMaxPoolSize_inv s t size inv) hv2
      | clear =>
          have hv2 : validOps (stepOp s RecycleOp.clear) rest = true := by
            simpa [validOps] using hvalid
          show handoutFresh (stepOp s RecycleOp.clear) rest = true
          exact ih _ (clearPools_inv s) hv2

theorem acquireCell_poolBound (s : RecyclerState) (t0 : String) (fi : Int)
    (hb : PoolBound s) : PoolBound (acquireCell s t0 fi).2 := by
  cases hp : alookup s.pools t0 with
  | none =>
      have hstate : (acquireCell s t0 fi).2 = s := by
        rw [acquireCell, hp]
      rw [hstate]; exact hb
  | some pool =>
      cases hl : pool.cells.getLast? with
      | none =>
          have hstate : (acquireCell s t0 fi).2 = s := by
            simp [acquireCell, hp, hl]
          rw [hstate]; exact hb
      | some cell0 =>
          have hstate : (acquireCell s t0 fi).2.pools =
              aset s.pools t0 { pool with cells := pool.cells.dropLast } := by
            simp [acquireCell, hp, hl]
          intro t p hp'
          rw [hstate, alookup_aset] at hp'
          by_cases ht : t0 = t
          · rw [if_pos ht] at hp'
            have h2 : p = { pool with cells := pool.cells.dropLast } :=
              (Option.some_inj.mp hp').symm
            subst h2
            have h1 := hb t0 pool hp
            simp only [List.length_dropLast]
            omega
          · rw [if_neg ht] at hp'
            exact hb t p hp'

theorem releaseCell_poolBound (s : RecyclerState) (cell : RecycledCell)
    (hb : PoolBound s) : PoolBound (releaseCell s cell) := by
  intro t p hp'
  simp only [releaseCell] at hp'
  rw [alookup_aset] at hp'
  by_cases ht : cell.itemType = t
  · rw [if_pos ht] at hp'
    have h2 := (Option.some_inj.mp hp').symm
    subst h2
    split
    · simp only [List.length_append, List.length_cons, List.length_nil]
      omega
    · cases hq : alookup s.pools cell.itemType with
      | none => simp
      | some pool0 => exact hb cell.itemType pool0 hq
  · rw [if_neg ht] at hp'
    exact hb t p hp'

theorem setMaxPoolSize_poolBound (s : RecyclerState) (t0 : String) (size : Nat)
    (hb : PoolBound s) : PoolBound (setMaxPoolSize s t0 size) := by
  intro t p hp'
  cases hq : alookup s.pools t0 with
  | none =>
      have hstate : (setMaxPoolSize s t0 size).pools =
          aset s.pools t0 { type := t0, cells := [], maxSize := size } := by
        simp [setMaxPoolSize, hq]
      rw [hstate, alookup_aset] at hp'
      by_cases ht : t0 = t
      · rw [if_pos ht] at hp'
        have h2 := (Option.some_inj.mp hp').symm
        subst h2
        simp
      · rw [if_neg ht] at hp'
        exact hb t p hp'
  | some pool =>
      have hstate : (setMaxPoolSize s t0 size).pools =
          aset s.pools t0 { pool with maxSize := size, cells := pool.cells.take size } := by
        simp [setMaxPoolSize, hq]
      rw [hstate, alookup_aset] at hp'
      by_cases ht : t0 = t
      · rw [if_pos ht] at hp'
        have h2 := (Option.some_inj.mp hp').symm
        subst h2
        show (pool.cells.take size).length ≤ size
        simp [List.length_take]
      · rw [if_neg ht] at hp'
        exact hb t p hp'

theorem getCell_poolBound (s : RecyclerState) (t0 : String) (fi : Int)
    (hb : PoolBound s) : PoolBound (getCell s t0 fi).2 := by
  cases hac : acquireCell s t0 fi with
  | mk co s2 =>
      cases co with
      | some c =>
          have hstate : (getCell s t0 fi).2 = s2 := by
            rw [getCell, hac]
          rw [hstate]
          have h2 := acquireCell_poolBound s t0 fi hb
          rw [hac] at h2
          exact h2
      | none =>
          have hstate : (getCell s t0 fi).2 = (createCell s2 t0 fi).2 := by
            rw [getCell, hac]
          rw [hstate]
          have hs2 : s2 = s := acquireCell_none_snd s t0 fi s2 hac
          subst hs2
          intro t p hp'
          exact hb t p hp'

theorem clearPools_poolBound (s : RecyclerState) : PoolBound (clearPools s) := by
  intro t p hp'
  simp [clearPools, alookup] at hp'

theorem stepOp_poolBound (s : RecyclerState) (op : RecycleOp)
    (hb : PoolBound s) : PoolBound (stepOp s op) := by
  cases op with
  | acquire t fi => exact acquireCell_poolBound s t fi hb
  | get t fi => exact getCell_poolBound s t fi hb
  | release cell => exact releaseCell_poolBound s cell hb
  | setMax t size => exact setMaxPoolSize_poolBound s t size hb
  | clear => exact clearPools_poolBound s

theorem runOps_poolBound : ∀ (ops : List RecycleOp) (s : RecyclerState),
    PoolBound s → PoolBound (runOps s ops) := by
  intro ops
  induction ops with
  | nil => intro s hb; exact hb
  | cons op rest ih =>
      intro s hb
      exact ih (stepOp s op) (stepOp_poolBound s op hb)

theorem initRecycler_poolBound (d : Nat) : PoolBound (initRecycler d) := by
  intro t p hp'
  simp [initRecycler, alookup] at hp'

/-- Claim C7: starting from a fresh recycler, for every operation sequence
in which each releaseCell targets a cell currently handed out and not yet
released, (1) after every prefix of the sequence no type's free list holds
more cells than that pool's configured maximum, and (2) every cell getCell
hands out has a key tracked as in use by no type at that moment, so a cell
handed out is never handed out again until it has been released. -/
theorem claim_C7 (d : Nat) (ops : List RecycleOp)
    (hvalid : validOps (initRecycler d) ops = true) :
    (∀ pre post, ops = pre ++ post → PoolBound (runOps (initRecycler d) pre)) ∧
    handoutFresh (initRecycler d) ops = true := by
  constructor
  · intro pre _ _
    exact runOps_poolBound pre (initRecycler d) (initRecycler_poolBound d)
  · exact handoutFresh_of_inv ops (initRecycler d) (RecInv.initial d) hvalid

/-- Witness for claim C7 on the concrete trace cOps against a fresh
recycler with default pool maximum 1. -/
theorem claim_C7_witness :
    validOps (initRecycler 1) cOps = true ∧
    handoutFresh (initRecycler 1) cOps = true ∧
    ({ type := "a", cells := [{ key := 1, itemType := "a", flatIndex := 2 }],
       maxSize := 1 } : RecyclePool).cells.length ≤
      ({ type := "a", cells := [{ key := 1, itemType := "a", flatIndex := 2 }],
         maxSize := 1 } : RecyclePool).maxSize := by
  refine ⟨by decide, (claim_C7 1 cOps (by decide)).2, ?_⟩
  exact (claim_C7 1 cOps (by decide)).1 cOps [] (List.append_nil cOps).symm
    "a" { type := "a", cells := [{ key := 1, itemType := "a", flatIndex := 2 }],
          maxSize := 1 } (by decide)

/-! ## Claim C8: getAverageSize is the arithmetic mean since the last clear -/

/-- The stats entry a run of recordMeasurement / clear calls leaves for a
type: the sum and count of exactly the sizes recorded since the last clear. -/
theorem runMeasureOps_stats (itemType : String) :
    ∀ ops : List MeasureOp,
    alookup (runMeasureOps emptyCache ops).typeStats itemType =
      (match recordedSizes ops itemType with
       | [] => none
       | l => some { totalSize := l.sum, count := l.length }) := by
  intro ops
  induction ops using List.reverseRecOn with
  | nil => rfl
  | append_singleton ops op ih =>
      have hrun : runMeasureOps emptyCache (ops ++ [op]) =
          (match op with
           | .record t sz => (runMeasureOps emptyCache ops).recordMeasurement t sz
           | .clear => (runMeasureOps emptyCache ops).clear) := by
        rw [runMeasureOps, List.foldl_append]
        rfl
      have hrec : recordedSizes (ops ++ [op]) itemType =
          recordedStep itemType (recordedSizes ops itemType) op := by
        rw [recordedSizes, List.foldl_append]
        rfl
      rw [hrun, hrec]
      cases op with
      | clear => rfl
      | record t sz =>
          by_cases ht : t = itemType
          · subst ht
            show alookup (aset _ t _) t = _
            rw [alookup_aset, if_pos rfl]
            rw [ih]
            cases hrs : recordedSizes ops t with
            | nil => simp [recordedStep]
            | cons a l => simp [recordedStep]; ring
          · show alookup (aset _ t _) itemType = _
            rw [alookup_aset, if_neg ht]
            rw [ih]
            simp [recordedStep, ht]

/-- Claim C8: for every sequence of recordMeasurement and clear calls,
getAverageSize returns the arithmetic mean of the sizes recorded for the
type since the last clear, and no value when none were recorded. -/
theorem claim_C8 (ops : List MeasureOp) (itemType : String) :
    (runMeasureOps emptyCache ops).getAverageSize itemType =
      (if recordedSizes ops itemType = [] then none
       else some ((recordedSizes ops itemType).sum /
         ((recordedSizes ops itemType).length : ℚ))) := by
  rw [CacheState.getAverageSize, runMeasureOps_stats itemType ops]
  cases hrs : recordedSizes ops itemType with
  | nil => simp
  | cons a l =>
      simp only
      rw [if_neg (by simp), if_neg (by simp)]

/-! ## Claims C3 and C5: ViewabilityTracker state machine -/

/-- cPosV's layouts are valid, so ensureLayoutsComputed is the identity. -/
theorem cPosV_ensure : cPosV.ensureLayoutsComputed = cPosV := rfl

/-- cPosV is the state ensureLayoutsComputed computes from the fresh
positioner cPos 6, so its literal layout map is the source's own. -/
theorem cPosV_reach : (cPos 6).ensureLayoutsComputed = cPosV := by
  norm_num +decide [PositionerState.ensureLayoutsComputed, cPos, cPosV, uMap6, cItems,
    layoutLoop, PositionerState.getItemSize, PositionerState.getEstimatedSize,
    CacheState.get, CacheState.getAverageSize, emptyCache, alookup, rectAt,
    List.range_succ, List.getElem?_map, List.getElem?_range, Prod.mk.injEq]

/-- At scroll offset 0 with viewport 100, the visible range is items 0-1. -/
theorem cPosV_range0 : cPosV.getVisibleRange 0 100 0 = (0, 1) := by
  have hb1 : bsearchStart uMap6 false 0 0 5 = 0 := by
    repeat first
    | rfl
    | (rw [bsearchStart.eq_def]; norm_num [uMap6, alookup, mainEnd])
  have hb2 : bsearchEnd uMap6 false 100 0 5 = 1 := by
    repeat first
    | rfl
    | (rw [bsearchEnd.eq_def]; norm_num [uMap6, alookup, mainStart])
  have hlen : cPosV.flattenedData.length = 6 := by decide
  have hcl : cPosV.computedLayouts = uMap6 := rfl
  have hhor : cPosV.horizontal = false := rfl
  norm_num [PositionerState.getVisibleRange, cPosV_ensure, hlen, hcl, hhor, hb1, hb2,
    Prod.mk.injEq]

/-- At scroll offset 200 with viewport 100, the visible range is items 4-5. -/
theorem cPosV_range200 : cPosV.getVisibleRange 200 100 0 = (4, 5) := by
  have hb1 : bsearchStart uMap6 false 200 0 5 = 4 := by
    repeat first
    | rfl
    | (rw [bsearchStart.eq_def]; norm_num [uMap6, alookup, mainEnd])
  have hb2 : bsearchEnd uMap6 false 300 0 5 = 5 := by
    repeat first
    | rfl
    | (rw [bsearchEnd.eq_def]; norm_num [uMap6, alookup, mainStart])
  have hlen : cPosV.flattenedData.length = 6 := by decide
  have hcl : cPosV.computedLayouts = uMap6 := rfl
  have hhor : cPosV.horizontal = false := rfl
  have hmax : max (0 : Rat) 200 = 200 := by norm_num
  norm_num [PositionerState.getVisibleRange, cPosV_ensure, hlen, hcl, hhor, hb1, hb2,
    hmax, Prod.mk.injEq]

theorem cPosV_L0 : cPosV.getLayoutForIndex 0 =
    { x := 0, y := 0, width := 0, height := 50 } := rfl

theorem cPosV_L1 : cPosV.getLayoutForIndex 1 =
    { x := 0, y := 50, width := 0, height := 50 } := rfl

theorem cPosV_L4 : cPosV.getLayoutForIndex 4 =
    { x := 0, y := 200, width := 0, height := 50 } := rfl

theorem cPosV_L5 : cPosV.getLayoutForIndex 5 =
    { x := 0, y := 250, width := 0, height := 50 } := rfl

/-- Claim C3 is refuted on the embedded code: over c3Passes, items 0 and 1
are confirmed at t=250 and exit at t=300, but their tracked state is NOT
dropped - after the exit pass the entry for index 0 is retained with
becameVisibleAt null, and although index 0 qualifies geometrically again
from t=1000 (it is in currentlyViewable at the end) and dwells 1000ms by
t=2000, no second entered event is ever emitted: the retained null
timestamp blocks re-promotion forever. -/
theorem claim_C3_counterexample :
    (cVT.runPasses c3Passes).2 =
      [(250, 0, true), (250, 1, true), (300, 0, false), (300, 1, false)] ∧
    alookup (cVT.runPasses (c3Passes.take 3)).1.trackedItems 0 =
      some { flatIndex := 0, isViewable := false, lastVisibleTime := 250,
             becameVisibleAt := none } ∧
    alookup (cVT.runPasses c3Passes).1.trackedItems 0 =
      some { flatIndex := 0, isViewable := false, lastVisibleTime := 2000,
             becameVisibleAt := none } ∧
    (cVT.runPasses c3Passes).1.currentlyViewable = [0, 1] := by
  have hIR01 : intRange 0 1 = [0, 1] := by decide
  have hIR45 : intRange 4 5 = [4, 5] := by decide
  norm_num +decide [VTState.runPasses, VTState.runPass, VTState.computeViewability,
    c3Passes, cVT, DEFAULT_VIEWABILITY_CONFIG, cPosV_range0, cPosV_range200, hIR01,
    hIR45, visitIndex, exitIndex, VTState.isItemViewable, promoteCheck,
    saddInt, alookup, aset, cPosV_L0, cPosV_L1, cPosV_L4, cPosV_L5, Prod.mk.injEq]

/-- Claim C5 is refuted on the embedded code: over c5Passes, items 0 and 1
are geometrically visible only during [0,10) (after the t=10 pass the
viewable set is items 4-5, and index 0 still carries its stale t=0
candidate timestamp), yet the t=1000 pass emits entered for both on the
very first pass of the new visibility stretch - each was visible far less
than minimumViewTime = 250ms, the dwell timer having run while they were
invisible. -/
theorem claim_C5_counterexample :
    (cVT.runPasses c5Passes).2 = [(1000, 0, true), (1000, 1, true)] ∧
    (cVT.runPasses (c5Passes.take 2)).1.currentlyViewable = [4, 5] ∧
    alookup (cVT.runPasses (c5Passes.take 2)).1.trackedItems 0 =
      some { flatIndex := 0, isViewable := false, lastVisibleTime := 0,
             becameVisibleAt := some 0 } := by
  have hIR01 : intRange 0 1 = [0, 1] := by decide
  have hIR45 : intRange 4 5 = [4, 5] := by decide
  norm_num +decide [VTState.runPasses, VTState.runPass, VTState.computeViewability,
    c5Passes, cVT, DEFAULT_VIEWABILITY_CONFIG, cPosV_range0, cPosV_range200, hIR01,
    hIR45, visitIndex, exitIndex, VTState.isItemViewable, promoteCheck,
    saddInt, alookup, aset, cPosV_L0, cPosV_L1, cPosV_L4, cPosV_L5, Prod.mk.injEq]

end SectionFlow
